import Mathlib

/-
Verification development for the `threadables` library (src/threadables.ts).

The library maps named, typed fields onto a contiguous raw byte region
(a SharedArrayBuffer viewed through a DataView).  This file gives a shallow
embedding of the data model and operations:

* JavaScript numbers are modelled as their IEEE-754 binary64 bit patterns
  (a `Nat` below `2 ^ 64`); BigInt values as unbounded `Int`.
* The shared region is a list of bytes (`Nat` below 256); DataView accesses
  are big-endian (the code never passes a littleEndian flag).
* An instance couples the compiled field metadata (an insertion-ordered
  association list, as a JavaScript object) with an optional bound region.
* Thrown JavaScript errors appear as an explicit error type: `notAllocated`
  models both the explicit throw in `share` and the TypeError raised when
  `instance[_data]` is undefined; `invalidVariant` models the string thrown
  by `set` for a value outside a variant list; `rangeError` models DataView
  bounds failures; `typeError` the remaining TypeErrors; `validation`
  the errors thrown by user supplied `check` functions.
* The equality used by `includes`/`indexOf` on variant lists is modelled by
  structural equality of `Value`; under the bit-pattern model this agrees
  with JavaScript except on the NaN and negative-zero corner values, which
  no variant list in the specification uses.
* The `in` operator and the property reads on the `_meta` object consult the
  prototype chain: `objectProtoKeys` lists the `Object.prototype` member
  names every plain object inherits, and `metaProp` models the three
  possible outcomes of the `instance[_meta][k]` read (own descriptor,
  inherited member, `undefined`).
* `declare` can throw: the accessor pair installed for a non-private field
  is non-configurable (the `Object.defineProperty` call passes no
  `configurable` flag), so redeclaring such a field name makes the second
  `defineProperty` throw a TypeError — after the metadata overwrite of that
  iteration, but before the width advance — aborting the loop.  `declare`
  therefore returns the mutated object together with the thrown error, if
  any.
-/

namespace Threadables

/-- JavaScript values as used by the library: numbers are carried as their
binary64 bit pattern, BigInt as an unbounded integer, plus strings,
booleans and `undefined`. -/
inductive Value where
  | number (bits : Nat)
  | bigint (i : Int)
  | str (s : String)
  | bool (b : Bool)
  | undef
deriving DecidableEq, Repr

/-- Errors thrown by the library (see the header comment for the mapping to
the JavaScript error values actually thrown). -/
inductive Err where
  | notAllocated
  | rangeError
  | typeError
  | invalidVariant (field : String) (value : Value)
  | validation (msg : String)
deriving DecidableEq, Repr

instance {ε α : Type} [DecidableEq ε] [DecidableEq α] : DecidableEq (Except ε α) := fun x y =>
  match x, y with
  | .ok a, .ok b =>
    if h : a = b then .isTrue (by rw [h]) else .isFalse (fun he => h (Except.ok.inj he))
  | .error a, .error b =>
    if h : a = b then .isTrue (by rw [h]) else .isFalse (fun he => h (Except.error.inj he))
  | .ok _, .error _ => .isFalse (fun he => Except.noConfusion he)
  | .error _, .ok _ => .isFalse (fun he => Except.noConfusion he)

/-- The ten fixed-width numeric field kinds accepted by `PropertyMetadata.type`
as strings (src/types.ts). -/
inductive NumericKind where
  | Int8 | Uint8 | Int16 | Uint16 | Int32 | Uint32
  | Float32 | Float64 | BigInt64 | BigUint64
deriving DecidableEq, Repr

/-- The type string of a numeric kind, exactly as written in the source. -/
def NumericKind.name : NumericKind → String
  | .Int8 => "Int8"
  | .Uint8 => "Uint8"
  | .Int16 => "Int16"
  | .Uint16 => "Uint16"
  | .Int32 => "Int32"
  | .Uint32 => "Uint32"
  | .Float32 => "Float32"
  | .Float64 => "Float64"
  | .BigInt64 => "BigInt64"
  | .BigUint64 => "BigUint64"

/-- Width in bytes of the DataView access performed by the
`get<Type>`/`set<Type>` method of each numeric kind. -/
def NumericKind.byteWidth : NumericKind → Nat
  | .Int8 => 1
  | .Uint8 => 1
  | .Int16 => 2
  | .Uint16 => 2
  | .Int32 => 4
  | .Uint32 => 4
  | .Float32 => 4
  | .Float64 => 8
  | .BigInt64 => 8
  | .BigUint64 => 8

/-- A field type is either a numeric kind (a type string) or a closed set of
variants (an array of values); the source distinguishes them with
`Array.isArray`. -/
inductive FieldType where
  | numeric (kind : NumericKind)
  | closedSet (variants : List Value)

/-- A user supplied validator: JavaScript `check` functions either return
(`none`) or throw an error (`some e`). -/
def Check : Type := Value → Option Err

/-- One entry of the `ObjectMetadata` supplied to `declare`
(`PropertyMetadata` in src/types.ts), before an offset is assigned. -/
structure PropSpec where
  type : FieldType
  check : Option Check := none
  writable : Bool := true
  isPrivate : Bool := false

/-- A compiled property descriptor: the spread `{ ...propMeta, byteOffset }`
stored in `prototype[_meta][k]` by `declare`. -/
structure Descriptor where
  type : FieldType
  check : Option Check
  writable : Bool
  isPrivate : Bool
  byteOffset : Nat

/-- The raw shared region: a list of bytes (each below 256). -/
def Data : Type := List Nat

instance : DecidableEq Data := List.hasDecEq

/-- An instance (or prototype): the hidden `_meta` map, the accessor surface
installed by `Object.defineProperty` (the Bool records whether a setter was
installed alongside the getter), the accumulated `_byteLength`, and the
optionally bound `_data` region. -/
structure Instance where
  meta : List (String × Descriptor)
  accessors : List (String × Bool)
  byteLength : Nat
  data : Option Data

/-- A fresh object before any `declare` call (the `??=` initialisers). -/
def Instance.empty : Instance :=
  { meta := [], accessors := [], byteLength := 0, data := none }

/- ## The width computation (src/threadables.ts lines 6-9) -/

/-- JavaScript `s.replace(/[^\d]+/, '')`: remove the first maximal run of
non-digit characters, keep everything else unchanged. -/
def jsReplaceFirstNonDigits (s : String) : String :=
  let l := s.data
  let pre := l.takeWhile (fun c => c.isDigit)
  let rest := l.dropWhile (fun c => c.isDigit)
  ⟨pre ++ rest.dropWhile (fun c => !c.isDigit)⟩

/-- JavaScript `parseInt` restricted to its behaviour on the strings produced
here: the value of the leading run of decimal digits. -/
def jsParseInt (s : String) : Nat :=
  (s.data.takeWhile (fun c => c.isDigit)).foldl (fun a c => a * 10 + (c.toNat - 48)) 0

/-- Layout width of a field (`getByteStride`): 8 for an array type, else the
digits of the type string divided by 8. -/
def getByteStride : FieldType → Nat
  | .closedSet _ => 8
  | .numeric nk => jsParseInt (jsReplaceFirstNonDigits nk.name) / 8

/- ## IEEE-754 bit-pattern arithmetic

JavaScript numbers are binary64 values; `DataView.setFloat32` narrows to
binary32 (round to nearest, ties to even) and `getFloat32` widens exactly.
The conversions below work directly on bit patterns. -/

/-- Assemble a binary64 bit pattern from sign, biased exponent and mantissa. -/
def compose64 (s e m : Nat) : Nat := (s * 2 ^ 11 + e) * 2 ^ 52 + m

/-- Assemble a binary32 bit pattern from sign, biased exponent and mantissa. -/
def compose32 (s e m : Nat) : Nat := (s * 2 ^ 8 + e) * 2 ^ 23 + m

/-- Round `n / 2 ^ sh` to the nearest integer, ties to even. -/
def roundNE (n sh : Nat) : Nat :=
  let q := n / 2 ^ sh
  let r := n % 2 ^ sh
  if 2 * r > 2 ^ sh ∨ (2 * r = 2 ^ sh ∧ q % 2 = 1) then q + 1 else q

/-- Exact widening of a binary32 bit pattern to binary64 (`getFloat32`). -/
def f32tof64 (b : Nat) : Nat :=
  let m := b % 2 ^ 23
  let e := b / 2 ^ 23 % 2 ^ 8
  let s := b / 2 ^ 31
  if e = 255 then compose64 s 2047 (m * 2 ^ 29)
  else if e ≠ 0 then compose64 s (e + 896) (m * 2 ^ 29)
  else if m = 0 then compose64 s 0 0
  else
    let k := Nat.log2 m
    compose64 s (874 + k) ((m - 2 ^ k) * 2 ^ (52 - k))

/-- Narrowing of a binary64 bit pattern to binary32, round to nearest with
ties to even (`setFloat32`). -/
def f64tof32 (b : Nat) : Nat :=
  let m := b % 2 ^ 52
  let e := b / 2 ^ 52 % 2 ^ 11
  let s := b / 2 ^ 63
  if e = 2047 then compose32 s 255 (if m = 0 then 0 else m / 2 ^ 29 + 2 ^ 22)
  else if 1151 ≤ e then compose32 s 255 0
  else if 897 ≤ e then
    let q := roundNE (2 ^ 52 + m) 29
    if q = 2 ^ 24 then
      (if 1151 ≤ e + 1 then compose32 s 255 0 else compose32 s (e - 896 + 1) 0)
    else compose32 s (e - 896) (q - 2 ^ 23)
  else if e = 0 then compose32 s 0 0
  else
    let q := roundNE (2 ^ 52 + m) (926 - e)
    if 2 ^ 23 ≤ q then compose32 s 1 (q - 2 ^ 23) else compose32 s 0 q

/-- The binary64 bit pattern of an integer (round to nearest, ties to even,
overflow to infinity); exact for magnitudes below `2 ^ 53`. -/
def intToF64Bits (i : Int) : Nat :=
  let s : Nat := if i < 0 then 1 else 0
  let a := i.natAbs
  if a = 0 then 0
  else
    let k := Nat.log2 a
    if k ≤ 52 then compose64 s (1023 + k) ((a - 2 ^ k) * 2 ^ (52 - k))
    else
      let q := roundNE a (k - 52)
      if q = 2 ^ 53 then
        (if 2047 ≤ 1024 + k then compose64 s 2047 0 else compose64 s (1024 + k) 0)
      else
        (if 2047 ≤ 1023 + k then compose64 s 2047 0 else compose64 s (1023 + k) (q - 2 ^ 52))

/-- Truncation of a binary64 bit pattern toward zero, with NaN and the
infinities mapped to 0: the integer produced by ECMAScript `ToInt8` ..
`ToUint32` before the final modulus. -/
def truncDecodeF64 (b : Nat) : Int :=
  let m := b % 2 ^ 52
  let e := b / 2 ^ 52 % 2 ^ 11
  let s := b / 2 ^ 63
  let mag : Nat :=
    if e = 2047 then 0
    else if e = 0 then 0
    else if e ≤ 1074 then (2 ^ 52 + m) / 2 ^ (1075 - e)
    else (2 ^ 52 + m) * 2 ^ (e - 1075)
  if s = 1 then -(mag : Int) else (mag : Int)

/-- The canonical NaN bit pattern. -/
def nanBits : Nat := 0x7FF8000000000000

/-- ECMAScript `ToNumber` on a numeric string, modelled for optional-sign
decimal integer literals; other string forms are not modelled and decode
to NaN (no claim exercises them). -/
def jsStringToNumberBits (s : String) : Nat :=
  match s.data with
  | [] => 0
  | c :: rest =>
    let digits : List Char → Option Nat := fun l =>
      if l ≠ [] ∧ l.all (fun d => d.isDigit) then
        some (l.foldl (fun a d => a * 10 + (d.toNat - 48)) 0)
      else none
    if c = Char.ofNat 45 then
      match digits rest with
      | some n => intToF64Bits (-(n : Int))
      | none => nanBits
    else
      match digits (c :: rest) with
      | some n => intToF64Bits (n : Int)
      | none => nanBits

/-- ECMAScript `ToNumber` of a non-BigInt value, as a bit pattern. -/
def toNumberBits : Value → Nat
  | .number b => b
  | .bool true => intToF64Bits 1
  | .bool false => 0
  | .str s => jsStringToNumberBits s
  | .undef => nanBits
  | .bigint _ => 0

/- ## Byte-level region access -/

/-- Big-endian byte decomposition of `u % 2 ^ (8 * w)` into `w` bytes. -/
def natToBytesBE : Nat → Nat → List Nat
  | 0, _ => []
  | w + 1, u => natToBytesBE w (u / 256) ++ [u % 256]

/-- Big-endian recomposition of a byte list. -/
def bytesToNatBE (bs : List Nat) : Nat := bs.foldl (fun a b => a * 256 + b) 0

/-- Read `w` bytes starting at `off`. -/
def readBytes (d : Data) (off w : Nat) : List Nat := ((d : List Nat).drop off).take w

/-- Overwrite the bytes at `off .. off + bs.length` with `bs`. -/
def writeBytes (d : Data) (off : Nat) (bs : List Nat) : Data :=
  (d : List Nat).take off ++ bs ++ (d : List Nat).drop (off + bs.length)

/-- Two's-complement reading of `w` bytes worth of unsigned value. -/
def toSigned (w : Nat) (u : Nat) : Int :=
  if u < 2 ^ (8 * w - 1) then (u : Int) else (u : Int) - 2 ^ (8 * w)

/-- Length of a `Data` value. -/
def Data.size (d : Data) : Nat := (d : List Nat).length

/-- The byte stored at `off` (0 when out of range; reads are always guarded
by a bounds check). -/
def Data.byte (d : Data) (off : Nat) : Nat := (d : List Nat).getD off 0

/- ## DataView numeric accesses

`SetViewValue` converts the value first (possibly throwing a TypeError),
then checks bounds (RangeError), then writes; `GetViewValue` checks bounds
then reads.  Multi-byte accesses are big-endian (no littleEndian flag is
ever passed in the source). -/

/-- The result of `instance[_data].get<Kind>(byteOffset)`. -/
def getNumeric (nk : NumericKind) (d : Data) (off : Nat) : Except Err Value :=
  if off + nk.byteWidth ≤ d.size then
    let u := bytesToNatBE (readBytes d off nk.byteWidth)
    match nk with
    | .Int8 => .ok (.number (intToF64Bits (toSigned 1 u)))
    | .Int16 => .ok (.number (intToF64Bits (toSigned 2 u)))
    | .Int32 => .ok (.number (intToF64Bits (toSigned 4 u)))
    | .Uint8 => .ok (.number (intToF64Bits (u : Int)))
    | .Uint16 => .ok (.number (intToF64Bits (u : Int)))
    | .Uint32 => .ok (.number (intToF64Bits (u : Int)))
    | .Float32 => .ok (.number (f32tof64 u))
    | .Float64 => .ok (.number u)
    | .BigInt64 => .ok (.bigint (toSigned 8 u))
    | .BigUint64 => .ok (.bigint (u : Int))
  else .error .rangeError

/-- Whether a numeric kind takes BigInt values. -/
def NumericKind.isBig : NumericKind → Bool
  | .BigInt64 => true
  | .BigUint64 => true
  | _ => false

/-- The result of `instance[_data].set<Kind>(byteOffset, value)`: either the
updated region or the thrown error. -/
def setNumeric (nk : NumericKind) (d : Data) (off : Nat) (v : Value) : Except Err Data :=
  if nk.isBig then
    match v with
    | .bigint x =>
      if off + 8 ≤ d.size then
        .ok (writeBytes d off (natToBytesBE 8 (x % 2 ^ 64).toNat))
      else .error .rangeError
    | _ => .error .typeError
  else
    match v with
    | .bigint _ => .error .typeError
    | _ =>
      let bits := toNumberBits v
      if off + nk.byteWidth ≤ d.size then
        match nk with
        | .Float64 => .ok (writeBytes d off (natToBytesBE 8 bits))
        | .Float32 => .ok (writeBytes d off (natToBytesBE 4 (f64tof32 bits)))
        | _ =>
          .ok (writeBytes d off (natToBytesBE nk.byteWidth
            (truncDecodeF64 bits % 2 ^ (8 * nk.byteWidth)).toNat))
      else .error .rangeError

/- ## The library operations (src/threadables.ts) -/

/-- JavaScript object assignment `obj[k] = a`: an existing key keeps its
position in insertion order and has its value replaced; a fresh key is
appended. -/
def insertJS {α : Type} : List (String × α) → String → α → List (String × α)
  | [], k, a => [(k, a)]
  | (k1, a1) :: rest, k, a =>
    if k1 = k then (k, a) :: rest else (k1, a1) :: insertJS rest k a

/-- One iteration of the `for (const k in objMeta)` loop of `declare`
(lines 22-37): record the descriptor at the current total width (line 27,
before the `Object.defineProperty` call, so the metadata overwrite persists
even when that call throws); for a non-private field whose accessor pair is
already installed, `Object.defineProperty` throws a TypeError (the accessor
from the earlier declaration is non-configurable and the fresh closures are
not the same functions), before the width advance; otherwise install the
accessor pair unless the field is private (the setter only when writable)
and advance the total width by the field's stride. -/
def declareField (i : Instance) (kv : String × PropSpec) : Instance × Option Err :=
  let k := kv.fst
  let spec := kv.snd
  let desc : Descriptor :=
    { type := spec.type, check := spec.check, writable := spec.writable,
      isPrivate := spec.isPrivate, byteOffset := i.byteLength }
  if spec.isPrivate then
    ({ meta := insertJS i.meta k desc, accessors := i.accessors,
       byteLength := i.byteLength + getByteStride spec.type, data := i.data }, none)
  else
    match List.lookup k i.accessors with
    | some _ =>
      ({ meta := insertJS i.meta k desc, accessors := i.accessors,
         byteLength := i.byteLength, data := i.data }, some .typeError)
    | none =>
      ({ meta := insertJS i.meta k desc,
         accessors := insertJS i.accessors k spec.writable,
         byteLength := i.byteLength + getByteStride spec.type, data := i.data }, none)

/-- `declare(prototype, objMeta)`: run `declareField` over the specs in
their iteration order; a `defineProperty` throw aborts the loop, keeping
the mutations already made. -/
def declare (i : Instance) (objMeta : List (String × PropSpec)) : Instance × Option Err :=
  match objMeta with
  | [] => (i, none)
  | kv :: rest =>
    match declareField i kv with
    | (i2, none) => declare i2 rest
    | (i2, some e) => (i2, some e)

theorem declareField_private (i : Instance) (k : String) (sp : PropSpec)
    (hp : sp.isPrivate = true) :
    declareField i (k, sp) =
      ({ meta := insertJS i.meta k
           { type := sp.type, check := sp.check, writable := sp.writable,
             isPrivate := sp.isPrivate, byteOffset := i.byteLength },
         accessors := i.accessors,
         byteLength := i.byteLength + getByteStride sp.type,
         data := i.data }, none) := by
  simp only [declareField, hp, if_true]

theorem declareField_fresh (i : Instance) (k : String) (sp : PropSpec)
    (hp : sp.isPrivate = false) (ha : List.lookup k i.accessors = none) :
    declareField i (k, sp) =
      ({ meta := insertJS i.meta k
           { type := sp.type, check := sp.check, writable := sp.writable,
             isPrivate := sp.isPrivate, byteOffset := i.byteLength },
         accessors := insertJS i.accessors k sp.writable,
         byteLength := i.byteLength + getByteStride sp.type,
         data := i.data }, none) := by
  simp only [declareField, hp, Bool.false_eq_true, if_false, ha]

theorem declareField_redefine (i : Instance) (k : String) (sp : PropSpec) (b : Bool)
    (hp : sp.isPrivate = false) (ha : List.lookup k i.accessors = some b) :
    declareField i (k, sp) =
      ({ meta := insertJS i.meta k
           { type := sp.type, check := sp.check, writable := sp.writable,
             isPrivate := sp.isPrivate, byteOffset := i.byteLength },
         accessors := i.accessors,
         byteLength := i.byteLength,
         data := i.data }, some .typeError) := by
  simp only [declareField, hp, Bool.false_eq_true, if_false, ha]

/-- With no accessor pair installed yet for the key, a field declaration
never throws, whatever its privacy. -/
theorem declareField_ok (i : Instance) (k : String) (sp : PropSpec)
    (ha : List.lookup k i.accessors = none) :
    declareField i (k, sp) =
      ({ meta := insertJS i.meta k
           { type := sp.type, check := sp.check, writable := sp.writable,
             isPrivate := sp.isPrivate, byteOffset := i.byteLength },
         accessors := if sp.isPrivate then i.accessors
           else insertJS i.accessors k sp.writable,
         byteLength := i.byteLength + getByteStride sp.type,
         data := i.data }, none) := by
  cases hp : sp.isPrivate
  · simp only [declareField_fresh i k sp hp ha, hp, Bool.false_eq_true, if_false]
  · simp only [declareField_private i k sp hp, hp, if_true]

theorem declare_cons_ok (i i2 : Instance) (kv : String × PropSpec)
    (rest : List (String × PropSpec)) (h : declareField i kv = (i2, none)) :
    declare i (kv :: rest) = declare i2 rest := by
  simp only [declare, h]

theorem declare_cons_err (i i2 : Instance) (kv : String × PropSpec)
    (rest : List (String × PropSpec)) (e : Err)
    (h : declareField i kv = (i2, some e)) :
    declare i (kv :: rest) = (i2, some e) := by
  simp only [declare, h]

/-- The second argument of `allocateData`: either an object carrying the
hidden `_byteLength` slot (the instance itself or a prototype), or any other
value — such as a raw number — on which the `_byteLength` lookup yields
`undefined`. -/
inductive SizeSource where
  | withLayout (byteLength : Nat)
  | rawNumber (n : Nat)

/-- The `targetPrototype[_byteLength]` property lookup. -/
def SizeSource.lookupByteLength : SizeSource → Option Nat
  | .withLayout n => some n
  | .rawNumber _ => none

/-- `allocateData(instance, targetPrototype)`: `new SharedArrayBuffer(x)`
zero-initialises; `ToIndex(undefined)` is 0.  The fresh view replaces any
prior binding. -/
def allocateData (i : Instance) (src : SizeSource) : Instance :=
  let n := match src.lookupByteLength with
    | some n => n
    | none => 0
  { i with data := some (List.replicate n 0) }

/-- `allocateData(instance)` with the defaulted second argument: the
instance itself is the size source, and it carries its own `_byteLength`. -/
def allocateDataDefault (i : Instance) : Instance :=
  allocateData i (.withLayout i.byteLength)

/-- `accept(instance, data)`. -/
def accept (i : Instance) (d : Data) : Instance := { i with data := some d }

/-- The property names a fresh `{}` object inherits from
`Object.prototype`: the JavaScript `in` operator and the property reads on
`instance[_meta]` see these in addition to the object's own keys. -/
def objectProtoKeys : List String :=
  [("constructor"), ("hasOwnProperty"), ("isPrototypeOf"),
   ("propertyIsEnumerable"), ("toLocaleString"), ("toString"), ("valueOf"),
   ("__defineGetter__"), ("__defineSetter__"), ("__lookupGetter__"),
   ("__lookupSetter__"), ("__proto__")]

/-- The outcome of the property read `instance[_meta][k]`: the own
descriptor of a declared field; for a name inherited from
`Object.prototype`, the inherited member — an object carrying neither
`byteOffset` nor `type`; and JavaScript `undefined` otherwise. -/
inductive MetaProp where
  | found (desc : Descriptor)
  | inherited
  | absent

/-- `instance[_meta][k]` through the prototype chain: an own key shadows
the inherited `Object.prototype` members. -/
def metaProp (meta : List (String × Descriptor)) (k : String) : MetaProp :=
  match List.lookup k meta with
  | some desc => .found desc
  | none => if objectProtoKeys.contains k then .inherited else .absent

theorem metaProp_found {meta : List (String × Descriptor)} {k : String} {desc : Descriptor}
    (h : List.lookup k meta = some desc) : metaProp meta k = .found desc := by
  simp only [metaProp, h]

theorem metaProp_inherited {meta : List (String × Descriptor)} {k : String}
    (h : List.lookup k meta = none) (hc : objectProtoKeys.contains k = true) :
    metaProp meta k = .inherited := by
  simp only [metaProp, h, hc, if_true]

theorem metaProp_absent {meta : List (String × Descriptor)} {k : String}
    (h : List.lookup k meta = none) (hc : objectProtoKeys.contains k = false) :
    metaProp meta k = .absent := by
  simp only [metaProp, h, hc, Bool.false_eq_true, if_false]

/-- `get(instance, k)` (lines 62-67).  A key that is neither declared nor
inherited makes the destructuring of `undefined` throw; for an inherited
`Object.prototype` name the destructuring yields `byteOffset` and `type`
both undefined, `Array.isArray(undefined)` is false, and the method read
`instance[_data]["getundefined"]` throws — on an unbound instance because
`instance[_data]` is itself undefined, on a bound one because the DataView
has no such method; missing `_data` makes the method access throw; an
array type reads one byte and indexes the variant list — a JavaScript
array read beyond the length yields `undefined`, not an error. -/
def get (i : Instance) (k : String) : Except Err Value :=
  match metaProp i.meta k with
  | .absent => .error .typeError
  | .inherited =>
    match i.data with
    | none => .error .notAllocated
    | some _ => .error .typeError
  | .found desc =>
    match i.data with
    | none => .error .notAllocated
    | some d =>
      match desc.type with
      | .numeric nk => getNumeric nk d desc.byteOffset
      | .closedSet vs =>
        if desc.byteOffset + 1 ≤ d.size then
          .ok (vs.getD (d.byte desc.byteOffset) .undef)
        else .error .rangeError

/-- `set(instance, k, value)` (lines 72-78), returning the possibly updated
instance together with the thrown error, if any.  The `_meta` read follows
the prototype chain exactly as in `get`: an undeclared, uninherited key
throws on the destructuring, and an inherited `Object.prototype` name
reaches the `instance[_data]["setundefined"]` read, which throws.  For an
array type the membership test precedes every region access; the stored
byte is `type.indexOf(value)` through `ToUint8`. -/
def set (i : Instance) (k : String) (v : Value) : Instance × Option Err :=
  match metaProp i.meta k with
  | .absent => (i, some .typeError)
  | .inherited =>
    match i.data with
    | none => (i, some .notAllocated)
    | some _ => (i, some .typeError)
  | .found desc =>
    match desc.type with
    | .numeric nk =>
      match i.data with
      | none => (i, some .notAllocated)
      | some d =>
        match setNumeric nk d desc.byteOffset v with
        | .ok d2 => ({ i with data := some d2 }, none)
        | .error e => (i, some e)
    | .closedSet vs =>
      if vs.contains v then
        match i.data with
        | none => (i, some .notAllocated)
        | some d =>
          if desc.byteOffset + 1 ≤ d.size then
            ({ i with data := some (writeBytes d desc.byteOffset [vs.indexOf v % 256]) }, none)
          else (i, some .rangeError)
      else (i, some (.invalidVariant k v))

/-- The `check?.(value)` call on the descriptor of `k`, as used by `assign`
and by the ambient setter: `none` when the field has no validator or the
validator returns, `some e` when it throws. -/
def runCheck (i : Instance) (k : String) (v : Value) : Option Err :=
  match List.lookup k i.meta with
  | none => none
  | some desc =>
    match desc.check with
    | none => none
    | some f => f v

/-- `assign(instance, values)` (lines 84-91): for each supplied key, in
iteration order, when the key passes the JavaScript `in` test against the
`_meta` object — a declared field, or any property name inherited from
`Object.prototype` — run the validator (`check?.` skips it when the member
read yields no `check`, as for an inherited member) and then `set`; a throw
aborts the loop with earlier writes kept. -/
def assign (i : Instance) (values : List (String × Value)) : Instance × Option Err :=
  match values with
  | [] => (i, none)
  | (k, v) :: rest =>
    if (List.lookup k i.meta).isSome || objectProtoKeys.contains k then
      match runCheck i k v with
      | some e => (i, some e)
      | none =>
        match set i k v with
        | (i2, none) => assign i2 rest
        | (i2, some e) => (i2, some e)
    else assign i rest

/-- The body of the ambient setter closure installed by `declare`
(lines 31-34): `this[_meta][k].check?.(value); set(this, k, value)`. -/
def protoSetter (i : Instance) (k : String) (v : Value) : Instance × Option Err :=
  match List.lookup k i.meta with
  | none => (i, some .typeError)
  | some _ =>
    match runCheck i k v with
    | some e => (i, some e)
    | none => set i k v

/- ## Helper notions used only to state the claims -/

/-- Replace every validator in the metadata by none. -/
def eraseChecks (i : Instance) : Instance :=
  { i with meta := i.meta.map (fun kd => (kd.fst, { kd.snd with check := none })) }

/-- Force the `writable` flag of every descriptor. -/
def withWritable (i : Instance) (b : Bool) : Instance :=
  { i with meta := i.meta.map (fun kd => (kd.fst, { kd.snd with writable := b })) }

/-- Sum of the strides of a descriptor list. -/
def sumWidths (l : List (String × Descriptor)) : Nat :=
  (l.map (fun kd => getByteStride kd.snd.type)).sum

/-- Sum of the strides of a spec list. -/
def sumSpecWidths (l : List (String × PropSpec)) : Nat :=
  (l.map (fun kv => getByteStride kv.snd.type)).sum

/-- The descriptors of `l` occupy consecutive byte ranges starting at `n`. -/
def contiguousFromB (n : Nat) : List (String × Descriptor) → Bool
  | [] => true
  | (_, d) :: rest =>
    d.byteOffset = n && contiguousFromB (n + getByteStride d.type) rest

/-- The value a zeroed region decodes to at a field of the given kind. -/
def zeroValueOf (nk : NumericKind) : Value :=
  if nk.isBig then .bigint 0 else .number 0

/-- A value is representable at a numeric kind exactly when storing it and
reading it back is lossless: integers within the two's-complement or
unsigned range for the integer kinds, any BigInt in range for the 64-bit
kinds, any binary64 pattern for Float64, and any exact binary32 value
(widened) for Float32. -/
def Representable (nk : NumericKind) (v : Value) : Prop :=
  match nk with
  | .Int8 => ∃ i : Int, -(2 ^ 7) ≤ i ∧ i < 2 ^ 7 ∧ v = .number (intToF64Bits i)
  | .Int16 => ∃ i : Int, -(2 ^ 15) ≤ i ∧ i < 2 ^ 15 ∧ v = .number (intToF64Bits i)
  | .Int32 => ∃ i : Int, -(2 ^ 31) ≤ i ∧ i < 2 ^ 31 ∧ v = .number (intToF64Bits i)
  | .Uint8 => ∃ n : Nat, n < 2 ^ 8 ∧ v = .number (intToF64Bits (n : Int))
  | .Uint16 => ∃ n : Nat, n < 2 ^ 16 ∧ v = .number (intToF64Bits (n : Int))
  | .Uint32 => ∃ n : Nat, n < 2 ^ 32 ∧ v = .number (intToF64Bits (n : Int))
  | .Float64 => ∃ b : Nat, b < 2 ^ 64 ∧ v = .number b
  | .Float32 => ∃ s e m : Nat, s < 2 ∧ e < 2 ^ 8 ∧ m < 2 ^ 23 ∧ (e = 255 → m = 0) ∧
      v = .number (f32tof64 (compose32 s e m))
  | .BigInt64 => ∃ i : Int, -(2 ^ 63) ≤ i ∧ i < 2 ^ 63 ∧ v = .bigint i
  | .BigUint64 => ∃ i : Int, 0 ≤ i ∧ i < 2 ^ 64 ∧ v = .bigint i

/- ## Arithmetic lemmas -/

theorem comp_mod (s e m B E : Nat) (hm : m < B) : ((s * E + e) * B + m) % B = m := by
  rw [Nat.mul_comm (s * E + e) B, Nat.mul_add_mod]
  exact Nat.mod_eq_of_lt hm

theorem comp_div (s e m B E : Nat) (hm : m < B) : ((s * E + e) * B + m) / B = s * E + e := by
  have hB : 0 < B := Nat.pos_of_ne_zero (by omega)
  rw [Nat.mul_comm (s * E + e) B, Nat.mul_add_div hB, Nat.div_eq_of_lt hm, Nat.add_zero]

theorem mulAdd_mod (s e E : Nat) (he : e < E) : (s * E + e) % E = e := by
  rw [Nat.mul_comm s E, Nat.mul_add_mod]
  exact Nat.mod_eq_of_lt he

theorem mulAdd_div (s e E : Nat) (he : e < E) : (s * E + e) / E = s := by
  have hE : 0 < E := Nat.pos_of_ne_zero (by omega)
  rw [Nat.mul_comm s E, Nat.mul_add_div hE, Nat.div_eq_of_lt he, Nat.add_zero]

theorem decomp64 (s e m : Nat) (he : e < 2 ^ 11) (hm : m < 2 ^ 52) :
    compose64 s e m % 2 ^ 52 = m ∧ compose64 s e m / 2 ^ 52 % 2 ^ 11 = e ∧
      compose64 s e m / 2 ^ 63 = s := by
  refine ⟨comp_mod s e m _ _ hm, ?_, ?_⟩
  · rw [compose64, comp_div s e m _ _ hm, mulAdd_mod s e _ he]
  · have h : (2 : Nat) ^ 63 = 2 ^ 52 * 2 ^ 11 := by norm_num
    rw [compose64, h, ← Nat.div_div_eq_div_mul, comp_div s e m _ _ hm, mulAdd_div s e _ he]

theorem decomp32 (s e m : Nat) (he : e < 2 ^ 8) (hm : m < 2 ^ 23) :
    compose32 s e m % 2 ^ 23 = m ∧ compose32 s e m / 2 ^ 23 % 2 ^ 8 = e ∧
      compose32 s e m / 2 ^ 31 = s := by
  refine ⟨comp_mod s e m _ _ hm, ?_, ?_⟩
  · rw [compose32, comp_div s e m _ _ hm, mulAdd_mod s e _ he]
  · have h : (2 : Nat) ^ 31 = 2 ^ 23 * 2 ^ 8 := by norm_num
    rw [compose32, h, ← Nat.div_div_eq_div_mul, comp_div s e m _ _ hm, mulAdd_div s e _ he]

theorem roundNE_exact (n sh : Nat) (h : n % 2 ^ sh = 0) : roundNE n sh = n / 2 ^ sh := by
  have hp : 0 < 2 ^ sh := Nat.pos_pow_of_pos sh (by norm_num)
  unfold roundNE
  rw [h]
  rw [if_neg]
  omega

theorem pow_split (k n : Nat) (h : k ≤ n) : (2 : Nat) ^ n = 2 ^ k * 2 ^ (n - k) := by
  rw [← pow_add]
  congr 1
  omega

theorem f64tof32_f32tof64 (s e m : Nat) (hs : s < 2) (he : e < 2 ^ 8) (hm : m < 2 ^ 23)
    (hnan : e = 255 → m = 0) :
    f64tof32 (f32tof64 (compose32 s e m)) = compose32 s e m := by
  obtain ⟨d1, d2, d3⟩ := decomp32 s e m he hm
  by_cases h255 : e = 255
  · subst h255
    have hm0 : m = 0 := hnan rfl
    subst hm0
    simp only [f32tof64, d1, d2, d3]
    norm_num
    obtain ⟨e1, e2, e3⟩ := decomp64 s 2047 0 (by norm_num) (by norm_num)
    simp only [f64tof32, e1, e2, e3, if_true]
  · by_cases h0 : e = 0
    · subst h0
      by_cases hm0 : m = 0
      · subst hm0
        simp only [f32tof64, d1, d2, d3]
        norm_num
        obtain ⟨e1, e2, e3⟩ := decomp64 s 0 0 (by norm_num) (by norm_num)
        simp only [f64tof32, e1, e2, e3]
        norm_num
      · -- float32 subnormal
        simp only [f32tof64, d1, d2, d3]
        rw [if_neg (by decide), if_neg (by decide), if_neg hm0]
        set k := Nat.log2 m with hk
        have hk1 : 2 ^ k ≤ m := Nat.log2_self_le hm0
        have hk2 : m < 2 ^ (k + 1) := Nat.lt_log2_self
        have hk3 : k < 23 := (Nat.log2_lt hm0).mpr hm
        have hmk : m - 2 ^ k < 2 ^ k := by
          have h2 : (2 : Nat) ^ (k + 1) = 2 * 2 ^ k := by ring
          omega
        have hsplit : (2 : Nat) ^ 52 = 2 ^ k * 2 ^ (52 - k) := pow_split k 52 (by omega)
        have hm64 : (m - 2 ^ k) * 2 ^ (52 - k) < 2 ^ 52 := by
          rw [hsplit]
          exact Nat.mul_lt_mul_of_lt_of_le hmk (Nat.le_refl _) (Nat.pos_pow_of_pos _ (by norm_num))
        obtain ⟨e1, e2, e3⟩ := decomp64 s (874 + k) ((m - 2 ^ k) * 2 ^ (52 - k))
          (by omega) hm64
        simp only [f64tof32, e1, e2, e3]
        rw [if_neg (by omega), if_neg (by omega), if_neg (by omega), if_neg (by omega)]
        have hsh : 926 - (874 + k) = 52 - k := by omega
        have hkey : 2 ^ 52 + (m - 2 ^ k) * 2 ^ (52 - k) = m * 2 ^ (52 - k) := by
          rw [hsplit, ← Nat.add_mul]
          congr 1
          omega
        rw [hsh, hkey, roundNE_exact _ _ (Nat.mul_mod_left m _),
          Nat.mul_div_cancel m (Nat.pos_pow_of_pos _ (by norm_num))]
        rw [if_neg (by omega)]
    · -- normal float32
      simp only [f32tof64, d1, d2, d3]
      rw [if_neg h255, if_pos h0]
      have he254 : e ≤ 254 := by
        have : e ≤ 255 := by omega
        omega
      have hm64 : m * 2 ^ 29 < 2 ^ 52 := by
        have : m * 2 ^ 29 < 2 ^ 23 * 2 ^ 29 :=
          Nat.mul_lt_mul_of_lt_of_le hm (Nat.le_refl _) (by norm_num)
        calc m * 2 ^ 29 < 2 ^ 23 * 2 ^ 29 := this
          _ = 2 ^ 52 := by norm_num
      obtain ⟨e1, e2, e3⟩ := decomp64 s (e + 896) (m * 2 ^ 29) (by omega) hm64
      simp only [f64tof32, e1, e2, e3]
      rw [if_neg (by omega), if_neg (by omega), if_pos (by omega : 897 ≤ e + 896)]
      have hkey : 2 ^ 52 + m * 2 ^ 29 = (2 ^ 23 + m) * 2 ^ 29 := by
        rw [Nat.add_mul]
        norm_num
      rw [hkey, roundNE_exact _ _ (Nat.mul_mod_left _ _),
        Nat.mul_div_cancel _ (by norm_num : (0 : Nat) < 2 ^ 29)]
      rw [if_neg (by omega)]
      simp only [compose32]
      omega

theorem truncDecodeF64_intToF64Bits (i : Int) (h : i.natAbs < 2 ^ 53) :
    truncDecodeF64 (intToF64Bits i) = i := by
  by_cases h0 : i.natAbs = 0
  · have hi0 : i = 0 := Int.natAbs_eq_zero.mp h0
    subst hi0
    decide
  · have hk1 : 2 ^ Nat.log2 i.natAbs ≤ i.natAbs := Nat.log2_self_le h0
    have hk2 : i.natAbs < 2 ^ (Nat.log2 i.natAbs + 1) := Nat.lt_log2_self
    have hk3 : Nat.log2 i.natAbs < 53 := (Nat.log2_lt h0).mpr h
    set a := i.natAbs with ha
    set k := Nat.log2 a with hk
    have hk52 : k ≤ 52 := by omega
    have hak : a - 2 ^ k < 2 ^ k := by
      have h2 : (2 : Nat) ^ (k + 1) = 2 * 2 ^ k := by ring
      omega
    have hsplit : (2 : Nat) ^ 52 = 2 ^ k * 2 ^ (52 - k) := pow_split k 52 hk52
    have hm : (a - 2 ^ k) * 2 ^ (52 - k) < 2 ^ 52 := by
      rw [hsplit]
      exact Nat.mul_lt_mul_of_lt_of_le hak (Nat.le_refl _) (Nat.pos_pow_of_pos _ (by norm_num))
    simp only [intToF64Bits, ← ha, ← hk]
    rw [if_neg h0, if_pos hk52]
    obtain ⟨e1, e2, e3⟩ :=
      decomp64 (if i < 0 then 1 else 0) (1023 + k) ((a - 2 ^ k) * 2 ^ (52 - k)) (by omega) hm
    simp only [truncDecodeF64, e1, e2, e3]
    rw [if_neg (show ¬(1023 + k = 2047) by omega), if_neg (show ¬(1023 + k = 0) by omega)]
    have hmag :
        (if 1023 + k ≤ 1074 then (2 ^ 52 + (a - 2 ^ k) * 2 ^ (52 - k)) / 2 ^ (1075 - (1023 + k))
         else (2 ^ 52 + (a - 2 ^ k) * 2 ^ (52 - k)) * 2 ^ (1023 + k - 1075)) = a := by
      by_cases h51 : k ≤ 51
      · rw [if_pos (show 1023 + k ≤ 1074 by omega)]
        have hsh : 1075 - (1023 + k) = 52 - k := by omega
        have hkey : 2 ^ 52 + (a - 2 ^ k) * 2 ^ (52 - k) = a * 2 ^ (52 - k) := by
          rw [hsplit, ← Nat.add_mul]
          congr 1
          omega
        rw [hsh, hkey, Nat.mul_div_cancel a (Nat.pos_pow_of_pos _ (by norm_num))]
      · have hkeq : k = 52 := by omega
        rw [if_neg (show ¬(1023 + k ≤ 1074) by omega)]
        rw [hkeq] at hk1 ⊢
        norm_num
        omega
    rw [hmag]
    by_cases hi : i < 0
    · rw [if_pos hi]
      rw [if_pos rfl]
      omega
    · rw [if_neg hi]
      rw [if_neg (by decide : ¬(0 : Nat) = 1)]
      omega

/- ## Byte store and load lemmas -/

theorem length_natToBytesBE (w : Nat) : ∀ u, (natToBytesBE w u).length = w := by
  induction w with
  | zero => intro u; rfl
  | succ w ih =>
    intro u
    simp only [natToBytesBE, List.length_append, ih, List.length_cons, List.length_nil]

theorem bytesToNatBE_append_one (bs : List Nat) (b : Nat) :
    bytesToNatBE (bs ++ [b]) = bytesToNatBE bs * 256 + b := by
  simp only [bytesToNatBE, List.foldl_append, List.foldl_cons, List.foldl_nil]

theorem bytesToNatBE_natToBytesBE (w : Nat) : ∀ u, bytesToNatBE (natToBytesBE w u) = u % 2 ^ (8 * w) := by
  induction w with
  | zero => intro u; simp [natToBytesBE, bytesToNatBE, Nat.mod_one]
  | succ w ih =>
    intro u
    rw [natToBytesBE, bytesToNatBE_append_one, ih]
    have h2 : (2 : Nat) ^ (8 * (w + 1)) = 256 * 2 ^ (8 * w) := by
      rw [show 8 * (w + 1) = 8 + 8 * w by ring, pow_add]
      norm_num
    rw [h2, Nat.mod_mul]
    omega

theorem size_writeBytes (d : Data) (off : Nat) (bs : List Nat)
    (h : off + bs.length ≤ d.size) :
    (writeBytes d off bs).size = d.size := by
  unfold writeBytes
  unfold Data.size at *
  simp only [List.length_append, List.length_take, List.length_drop]
  omega

theorem readBytes_writeBytes (d : Data) (off : Nat) (bs : List Nat)
    (h : off + bs.length ≤ d.size) :
    readBytes (writeBytes d off bs) off bs.length = bs := by
  unfold readBytes writeBytes
  unfold Data.size at h
  have hlen : ((d : List Nat).take off).length = off := by
    simp only [List.length_take]
    omega
  rw [List.append_assoc, List.drop_left' hlen, List.take_left' rfl]

theorem byte_writeBytes_ne (d : Data) (off : Nat) (bs : List Nat) (j : Nat)
    (h : off + bs.length ≤ d.size) (hj : j < off ∨ off + bs.length ≤ j) :
    (writeBytes d off bs).byte j = d.byte j := by
  unfold writeBytes Data.byte
  unfold Data.size at h
  have hlen : ((d : List Nat).take off).length = off := by
    simp only [List.length_take]
    omega
  rcases hj with hj | hj
  · rw [List.getD_eq_getElem?_getD, List.getD_eq_getElem?_getD, List.append_assoc,
      List.getElem?_append_left (by omega), List.getElem?_take_of_lt hj]
  · rw [List.getD_eq_getElem?_getD, List.getD_eq_getElem?_getD, List.append_assoc,
      List.getElem?_append_right (show ((d : List Nat).take off).length ≤ j by omega), hlen,
      List.getElem?_append_right (show bs.length ≤ j - off by omega), List.getElem?_drop]
    have hidx : off + bs.length + (j - off - bs.length) = j := by omega
    rw [hidx]

theorem byte_writeBytes_self (d : Data) (off b : Nat) (h : off < d.size) :
    (writeBytes d off [b]).byte off = b := by
  unfold writeBytes Data.byte
  unfold Data.size at h
  have hlen : ((d : List Nat).take off).length = off := by
    simp only [List.length_take]
    omega
  rw [List.getD_eq_getElem?_getD, List.append_assoc,
    List.getElem?_append_right (show ((d : List Nat).take off).length ≤ off by omega), hlen,
    Nat.sub_self]
  simp only [List.singleton_append, List.getElem?_cons_zero, Option.getD_some]

theorem store_load (w u : Nat) (d : Data) (off : Nat)
    (h : off + w ≤ d.size) (hu : u < 2 ^ (8 * w)) :
    bytesToNatBE (readBytes (writeBytes d off (natToBytesBE w u)) off w) = u := by
  have hl := length_natToBytesBE w u
  have hr := readBytes_writeBytes d off (natToBytesBE w u) (by rw [hl]; exact h)
  rw [hl] at hr
  rw [hr, bytesToNatBE_natToBytesBE, Nat.mod_eq_of_lt hu]

/- ## Two's-complement store and load -/

theorem emod_toNat_lt (i : Int) (w : Nat) :
    (i % (2 : Int) ^ (8 * w)).toNat < 2 ^ (8 * w) := by
  have h1 : (0 : Int) < 2 ^ (8 * w) := by positivity
  have h2 := Int.emod_lt_of_pos i h1
  have h3 := Int.emod_nonneg i (ne_of_gt h1)
  have hcast : ((2 ^ (8 * w) : Nat) : Int) = 2 ^ (8 * w) := by push_cast; ring
  omega

theorem toSigned_emod (w : Nat) (i : Int) (hw : 0 < w)
    (h1 : -(2 ^ (8 * w - 1)) ≤ i) (h2 : i < 2 ^ (8 * w - 1)) :
    toSigned w (i % 2 ^ (8 * w)).toNat = i := by
  have hsplit : (2 : Int) ^ (8 * w) = 2 ^ (8 * w - 1) * 2 := by
    rw [← pow_succ]
    congr 1
    omega
  have hcast : ((2 ^ (8 * w - 1) : Nat) : Int) = 2 ^ (8 * w - 1) := by push_cast; ring
  have hcast2 : ((2 ^ (8 * w) : Nat) : Int) = 2 ^ (8 * w) := by push_cast; ring
  by_cases hpos : 0 ≤ i
  · have hlt : i < 2 ^ (8 * w) := by omega
    rw [Int.emod_eq_of_lt hpos hlt]
    unfold toSigned
    rw [if_pos (show i.toNat < 2 ^ (8 * w - 1) by omega)]
    omega
  · push_neg at hpos
    have hv : i % 2 ^ (8 * w) = i + 2 ^ (8 * w) := by
      have e1 := Int.add_mul_emod_self_left i (2 ^ (8 * w)) 1
      rw [Int.mul_one] at e1
      rw [← e1, Int.emod_eq_of_lt (by omega) (by omega)]
    rw [hv]
    unfold toSigned
    rw [if_neg (show ¬(i + 2 ^ (8 * w)).toNat < 2 ^ (8 * w - 1) by omega)]
    omega

theorem toSigned_of_lt (w u : Nat) (h : u < 2 ^ (8 * w - 1)) : toSigned w u = (u : Int) := by
  unfold toSigned
  rw [if_pos h]

theorem compose32_lt (s e m : Nat) (hs : s < 2) (he : e < 2 ^ 8) (hm : m < 2 ^ 23) :
    compose32 s e m < 2 ^ 32 := by
  unfold compose32
  norm_num at he hm ⊢
  omega

/-- Full store-then-load round trip of the DataView codec, for every numeric
kind and every representable value. -/
theorem getNumeric_setNumeric (nk : NumericKind) (d : Data) (off : Nat) (v : Value)
    (h : off + nk.byteWidth ≤ d.size) (hv : Representable nk v) :
    ∃ d2, setNumeric nk d off v = .ok d2 ∧ getNumeric nk d2 off = .ok v ∧
      d2.size = d.size := by
  cases nk with
  | Int8 =>
    obtain ⟨i, hlo, hhi, hveq⟩ := hv
    subst hveq
    simp only [NumericKind.byteWidth] at h
    have htd : truncDecodeF64 (intToF64Bits i) = i :=
      truncDecodeF64_intToF64Bits i (by omega)
    have hu : (i % (2 : Int) ^ (8 * 1)).toNat < 2 ^ (8 * 1) := emod_toNat_lt i 1
    have hset : setNumeric .Int8 d off (.number (intToF64Bits i)) =
        .ok (writeBytes d off (natToBytesBE 1 ((i % 2 ^ (8 * 1)).toNat))) := by
      simp only [setNumeric, NumericKind.isBig, NumericKind.byteWidth, toNumberBits, htd,
        Bool.false_eq_true, if_false, if_pos h]
    have hsize : (writeBytes d off (natToBytesBE 1 ((i % 2 ^ (8 * 1)).toNat))).size = d.size := by
      apply size_writeBytes
      rw [length_natToBytesBE]
      exact h
    refine ⟨_, hset, ?_, hsize⟩
    have hload := store_load 1 ((i % 2 ^ (8 * 1)).toNat) d off h hu
    simp only [getNumeric, NumericKind.byteWidth, hsize, if_pos h, hload,
      toSigned_emod 1 i (by norm_num) (by norm_num at hlo ⊢; exact hlo)
        (by norm_num at hhi ⊢; exact hhi)]
  | Int16 =>
    obtain ⟨i, hlo, hhi, hveq⟩ := hv
    subst hveq
    simp only [NumericKind.byteWidth] at h
    have htd : truncDecodeF64 (intToF64Bits i) = i :=
      truncDecodeF64_intToF64Bits i (by omega)
    have hu : (i % (2 : Int) ^ (8 * 2)).toNat < 2 ^ (8 * 2) := emod_toNat_lt i 2
    have hset : setNumeric .Int16 d off (.number (intToF64Bits i)) =
        .ok (writeBytes d off (natToBytesBE 2 ((i % 2 ^ (8 * 2)).toNat))) := by
      simp only [setNumeric, NumericKind.isBig, NumericKind.byteWidth, toNumberBits, htd,
        Bool.false_eq_true, if_false, if_pos h]
    have hsize : (writeBytes d off (natToBytesBE 2 ((i % 2 ^ (8 * 2)).toNat))).size = d.size := by
      apply size_writeBytes
      rw [length_natToBytesBE]
      exact h
    refine ⟨_, hset, ?_, hsize⟩
    have hload := store_load 2 ((i % 2 ^ (8 * 2)).toNat) d off h hu
    simp only [getNumeric, NumericKind.byteWidth, hsize, if_pos h, hload,
      toSigned_emod 2 i (by norm_num) (by norm_num at hlo ⊢; exact hlo)
        (by norm_num at hhi ⊢; exact hhi)]
  | Int32 =>
    obtain ⟨i, hlo, hhi, hveq⟩ := hv
    subst hveq
    simp only [NumericKind.byteWidth] at h
    have htd : truncDecodeF64 (intToF64Bits i) = i :=
      truncDecodeF64_intToF64Bits i (by omega)
    have hu : (i % (2 : Int) ^ (8 * 4)).toNat < 2 ^ (8 * 4) := emod_toNat_lt i 4
    have hset : setNumeric .Int32 d off (.number (intToF64Bits i)) =
        .ok (writeBytes d off (natToBytesBE 4 ((i % 2 ^ (8 * 4)).toNat))) := by
      simp only [setNumeric, NumericKind.isBig, NumericKind.byteWidth, toNumberBits, htd,
        Bool.false_eq_true, if_false, if_pos h]
    have hsize : (writeBytes d off (natToBytesBE 4 ((i % 2 ^ (8 * 4)).toNat))).size = d.size := by
      apply size_writeBytes
      rw [length_natToBytesBE]
      exact h
    refine ⟨_, hset, ?_, hsize⟩
    have hload := store_load 4 ((i % 2 ^ (8 * 4)).toNat) d off h hu
    simp only [getNumeric, NumericKind.byteWidth, hsize, if_pos h, hload,
      toSigned_emod 4 i (by norm_num) (by norm_num at hlo ⊢; exact hlo)
        (by norm_num at hhi ⊢; exact hhi)]
  | Uint8 =>
    obtain ⟨n, hn, hveq⟩ := hv
    subst hveq
    simp only [NumericKind.byteWidth] at h
    have htd : truncDecodeF64 (intToF64Bits (n : Int)) = (n : Int) :=
      truncDecodeF64_intToF64Bits (n : Int) (by simp only [Int.natAbs_ofNat]; omega)
    have hstored : ((n : Int) % 2 ^ (8 * 1)).toNat = n := by omega
    have hu : n < 2 ^ (8 * 1) := by omega
    have hset : setNumeric .Uint8 d off (.number (intToF64Bits (n : Int))) =
        .ok (writeBytes d off (natToBytesBE 1 n)) := by
      simp only [setNumeric, NumericKind.isBig, NumericKind.byteWidth, toNumberBits, htd,
        Bool.false_eq_true, if_false, if_pos h, hstored]
    have hsize : (writeBytes d off (natToBytesBE 1 n)).size = d.size := by
      apply size_writeBytes
      rw [length_natToBytesBE]
      exact h
    refine ⟨_, hset, ?_, hsize⟩
    have hload := store_load 1 n d off h hu
    simp only [getNumeric, NumericKind.byteWidth, hsize, if_pos h, hload]
  | Uint16 =>
    obtain ⟨n, hn, hveq⟩ := hv
    subst hveq
    simp only [NumericKind.byteWidth] at h
    have htd : truncDecodeF64 (intToF64Bits (n : Int)) = (n : Int) :=
      truncDecodeF64_intToF64Bits (n : Int) (by simp only [Int.natAbs_ofNat]; omega)
    have hstored : ((n : Int) % 2 ^ (8 * 2)).toNat = n := by omega
    have hu : n < 2 ^ (8 * 2) := by omega
    have hset : setNumeric .Uint16 d off (.number (intToF64Bits (n : Int))) =
        .ok (writeBytes d off (natToBytesBE 2 n)) := by
      simp only [setNumeric, NumericKind.isBig, NumericKind.byteWidth, toNumberBits, htd,
        Bool.false_eq_true, if_false, if_pos h, hstored]
    have hsize : (writeBytes d off (natToBytesBE 2 n)).size = d.size := by
      apply size_writeBytes
      rw [length_natToBytesBE]
      exact h
    refine ⟨_, hset, ?_, hsize⟩
    have hload := store_load 2 n d off h hu
    simp only [getNumeric, NumericKind.byteWidth, hsize, if_pos h, hload]
  | Uint32 =>
    obtain ⟨n, hn, hveq⟩ := hv
    subst hveq
    simp only [NumericKind.byteWidth] at h
    have htd : truncDecodeF64 (intToF64Bits (n : Int)) = (n : Int) :=
      truncDecodeF64_intToF64Bits (n : Int) (by simp only [Int.natAbs_ofNat]; omega)
    have hstored : ((n : Int) % 2 ^ (8 * 4)).toNat = n := by omega
    have hu : n < 2 ^ (8 * 4) := by omega
    have hset : setNumeric .Uint32 d off (.number (intToF64Bits (n : Int))) =
        .ok (writeBytes d off (natToBytesBE 4 n)) := by
      simp only [setNumeric, NumericKind.isBig, NumericKind.byteWidth, toNumberBits, htd,
        Bool.false_eq_true, if_false, if_pos h, hstored]
    have hsize : (writeBytes d off (natToBytesBE 4 n)).size = d.size := by
      apply size_writeBytes
      rw [length_natToBytesBE]
      exact h
    refine ⟨_, hset, ?_, hsize⟩
    have hload := store_load 4 n d off h hu
    simp only [getNumeric, NumericKind.byteWidth, hsize, if_pos h, hload]
  | Float64 =>
    obtain ⟨b, hb, hveq⟩ := hv
    subst hveq
    simp only [NumericKind.byteWidth] at h
    have hu : b < 2 ^ (8 * 8) := by norm_num at hb ⊢; exact hb
    have hset : setNumeric .Float64 d off (.number b) =
        .ok (writeBytes d off (natToBytesBE 8 b)) := by
      simp only [setNumeric, NumericKind.isBig, NumericKind.byteWidth, toNumberBits,
        Bool.false_eq_true, if_false, if_pos h]
    have hsize : (writeBytes d off (natToBytesBE 8 b)).size = d.size := by
      apply size_writeBytes
      rw [length_natToBytesBE]
      exact h
    refine ⟨_, hset, ?_, hsize⟩
    have hload := store_load 8 b d off h hu
    simp only [getNumeric, NumericKind.byteWidth, hsize, if_pos h, hload]
  | Float32 =>
    obtain ⟨s, e, m, hs, he, hm, hnan, hveq⟩ := hv
    subst hveq
    simp only [NumericKind.byteWidth] at h
    have hrt : f64tof32 (f32tof64 (compose32 s e m)) = compose32 s e m :=
      f64tof32_f32tof64 s e m hs he hm hnan
    have hu : compose32 s e m < 2 ^ (8 * 4) := by
      have := compose32_lt s e m hs he hm
      norm_num at this ⊢
      exact this
    have hset : setNumeric .Float32 d off (.number (f32tof64 (compose32 s e m))) =
        .ok (writeBytes d off (natToBytesBE 4 (compose32 s e m))) := by
      simp only [setNumeric, NumericKind.isBig, NumericKind.byteWidth, toNumberBits,
        Bool.false_eq_true, if_false, if_pos h, hrt]
    have hsize : (writeBytes d off (natToBytesBE 4 (compose32 s e m))).size = d.size := by
      apply size_writeBytes
      rw [length_natToBytesBE]
      exact h
    refine ⟨_, hset, ?_, hsize⟩
    have hload := store_load 4 (compose32 s e m) d off h hu
    simp only [getNumeric, NumericKind.byteWidth, hsize, if_pos h, hload]
  | BigInt64 =>
    obtain ⟨x, hlo, hhi, hveq⟩ := hv
    subst hveq
    simp only [NumericKind.byteWidth] at h
    have hu : (x % (2 : Int) ^ (8 * 8)).toNat < 2 ^ (8 * 8) := emod_toNat_lt x 8
    have hx64 : (x % (2 : Int) ^ 64).toNat = (x % (2 : Int) ^ (8 * 8)).toNat := by norm_num
    have hset : setNumeric .BigInt64 d off (.bigint x) =
        .ok (writeBytes d off (natToBytesBE 8 ((x % 2 ^ (8 * 8)).toNat))) := by
      simp only [setNumeric, NumericKind.isBig, if_true, if_pos h, hx64]
    have hsize : (writeBytes d off (natToBytesBE 8 ((x % 2 ^ (8 * 8)).toNat))).size = d.size := by
      apply size_writeBytes
      rw [length_natToBytesBE]
      exact h
    refine ⟨_, hset, ?_, hsize⟩
    have hload := store_load 8 ((x % 2 ^ (8 * 8)).toNat) d off h hu
    simp only [getNumeric, NumericKind.byteWidth, hsize, if_pos h, hload,
      toSigned_emod 8 x (by norm_num) (by norm_num at hlo ⊢; exact hlo)
        (by norm_num at hhi ⊢; exact hhi)]
  | BigUint64 =>
    obtain ⟨x, hlo, hhi, hveq⟩ := hv
    subst hveq
    simp only [NumericKind.byteWidth] at h
    have hu : (x % (2 : Int) ^ (8 * 8)).toNat < 2 ^ (8 * 8) := emod_toNat_lt x 8
    have hx64 : (x % (2 : Int) ^ 64).toNat = (x % (2 : Int) ^ (8 * 8)).toNat := by norm_num
    have hset : setNumeric .BigUint64 d off (.bigint x) =
        .ok (writeBytes d off (natToBytesBE 8 ((x % 2 ^ (8 * 8)).toNat))) := by
      simp only [setNumeric, NumericKind.isBig, if_true, if_pos h, hx64]
    have hsize : (writeBytes d off (natToBytesBE 8 ((x % 2 ^ (8 * 8)).toNat))).size = d.size := by
      apply size_writeBytes
      rw [length_natToBytesBE]
      exact h
    refine ⟨_, hset, ?_, hsize⟩
    have hload := store_load 8 ((x % 2 ^ (8 * 8)).toNat) d off h hu
    have hback : (((x % (2 : Int) ^ (8 * 8)).toNat : Nat) : Int) = x := by
      have hc : ((2 ^ (8 * 8) : Nat) : Int) = (2 : Int) ^ (8 * 8) := by norm_num
      have h1 : (0 : Int) < 2 ^ (8 * 8) := by positivity
      have h2 := Int.emod_lt_of_pos x h1
      have h3 := Int.emod_nonneg x (ne_of_gt h1)
      have h4 : x < (2 : Int) ^ (8 * 8) := lt_of_lt_of_le hhi (by norm_num)
      rw [Int.emod_eq_of_lt hlo h4]
      omega
    simp only [getNumeric, NumericKind.byteWidth, hsize, if_pos h, hload, hback]

/- ## Association-list and layout lemmas -/

theorem lookup_cons_self {α : Type} (k : String) (a : α) (l : List (String × α)) :
    List.lookup k ((k, a) :: l) = some a := by
  simp [List.lookup]

theorem lookup_cons_ne {α : Type} (k k1 : String) (a : α) (l : List (String × α))
    (h : k ≠ k1) : List.lookup k ((k1, a) :: l) = List.lookup k l := by
  simp only [List.lookup]
  rw [show (k == k1) = false from beq_eq_false_iff_ne.mpr h]

theorem lookup_append_left {α : Type} (k : String) (l1 l2 : List (String × α))
    (h : List.lookup k l1 = none) :
    List.lookup k (l1 ++ l2) = List.lookup k l2 := by
  induction l1 with
  | nil => simp
  | cons kv rest ih =>
    obtain ⟨k1, a1⟩ := kv
    by_cases hk : k = k1
    · subst hk
      rw [lookup_cons_self] at h
      exact absurd h (by simp)
    · rw [lookup_cons_ne k k1 a1 rest hk] at h
      rw [List.cons_append, lookup_cons_ne k k1 a1 (rest ++ l2) hk]
      exact ih h

theorem lookup_eq_none_of_not_mem {α : Type} (k : String) (l : List (String × α))
    (h : k ∉ l.map Prod.fst) : List.lookup k l = none := by
  induction l with
  | nil => simp
  | cons kv rest ih =>
    obtain ⟨k1, a1⟩ := kv
    simp only [List.map_cons, List.mem_cons, not_or] at h
    rw [lookup_cons_ne k k1 a1 rest h.1]
    exact ih h.2

theorem insertJS_of_lookup_none {α : Type} (l : List (String × α)) (k : String) (a : α)
    (h : List.lookup k l = none) : insertJS l k a = l ++ [(k, a)] := by
  induction l with
  | nil => rfl
  | cons kv rest ih =>
    obtain ⟨k1, a1⟩ := kv
    by_cases hk : k = k1
    · subst hk
      rw [lookup_cons_self] at h
      exact absurd h (by simp)
    · rw [lookup_cons_ne k k1 a1 rest hk] at h
      have hne : ¬k1 = k := fun he => hk he.symm
      simp only [insertJS, if_neg hne, List.cons_append]
      rw [ih h]

theorem getByteStride_pos (t : FieldType) : 0 < getByteStride t := by
  cases t with
  | closedSet vs =>
    show 0 < 8
    decide
  | numeric nk => cases nk <;> decide

theorem contiguous_le (l : List (String × Descriptor)) :
    ∀ n, contiguousFromB n l = true → ∀ kd ∈ l, n ≤ kd.snd.byteOffset := by
  induction l with
  | nil => intro n _ kd hkd; cases hkd
  | cons kd0 rest ih =>
    intro n hc kd hkd
    simp only [contiguousFromB, Bool.and_eq_true, decide_eq_true_eq] at hc
    simp only [List.mem_cons] at hkd
    rcases hkd with hkd | hkd
    · subst hkd
      omega
    · have := ih (n + getByteStride kd0.snd.type) hc.2 kd hkd
      omega

theorem contiguous_pairwise (l : List (String × Descriptor)) :
    ∀ n, contiguousFromB n l = true →
      l.Pairwise (fun a b => a.snd.byteOffset + getByteStride a.snd.type ≤ b.snd.byteOffset) := by
  induction l with
  | nil => intro n _; exact List.Pairwise.nil
  | cons kd0 rest ih =>
    intro n hc
    simp only [contiguousFromB, Bool.and_eq_true, decide_eq_true_eq] at hc
    refine List.Pairwise.cons ?_ (ih _ hc.2)
    intro b hb
    have := contiguous_le rest _ hc.2 b hb
    omega

theorem contiguous_append (l1 l2 : List (String × Descriptor)) :
    ∀ n, contiguousFromB n l1 = true → contiguousFromB (n + sumWidths l1) l2 = true →
      contiguousFromB n (l1 ++ l2) = true := by
  induction l1 with
  | nil =>
    intro n _ h2
    simpa [sumWidths] using h2
  | cons kd0 rest ih =>
    intro n h1 h2
    simp only [contiguousFromB, Bool.and_eq_true, decide_eq_true_eq] at h1 ⊢
    refine ⟨h1.1, ?_⟩
    apply ih _ h1.2
    have harr : n + getByteStride kd0.snd.type + sumWidths rest = n + sumWidths (kd0 :: rest) := by
      simp only [sumWidths, List.map_cons, List.sum_cons]
      omega
    rw [harr]
    exact h2

theorem sumWidths_append (l1 l2 : List (String × Descriptor)) :
    sumWidths (l1 ++ l2) = sumWidths l1 + sumWidths l2 := by
  simp [sumWidths]

theorem lookup_insertJS_self {α : Type} (l : List (String × α)) (k : String) (a : α) :
    List.lookup k (insertJS l k a) = some a := by
  induction l with
  | nil => exact lookup_cons_self k a []
  | cons kv rest ih =>
    obtain ⟨k1, a1⟩ := kv
    by_cases hk : k1 = k
    · subst hk
      simp only [insertJS, if_true]
      exact lookup_cons_self k1 a rest
    · simp only [insertJS, if_neg hk]
      rw [lookup_cons_ne k k1 a1 _ (fun he => hk he.symm)]
      exact ih

theorem lookup_insertJS_ne {α : Type} (l : List (String × α)) (k k0 : String) (a : α)
    (h : k ≠ k0) : List.lookup k (insertJS l k0 a) = List.lookup k l := by
  induction l with
  | nil =>
    simp only [insertJS]
    rw [lookup_cons_ne k k0 a [] h]
  | cons kv rest ih =>
    obtain ⟨k1, a1⟩ := kv
    by_cases hk : k1 = k0
    · subst hk
      simp only [insertJS, if_true]
      rw [lookup_cons_ne k k1 a rest h, lookup_cons_ne k k1 a1 rest h]
    · simp only [insertJS, if_neg hk]
      by_cases hkk : k = k1
      · subst hkk
        rw [lookup_cons_self, lookup_cons_self]
      · rw [lookup_cons_ne k k1 a1 _ hkk, lookup_cons_ne k k1 a1 rest hkk]
        exact ih

/-- Core structure of `declare`: on field names that are pairwise distinct
and fresh — in the registry and on the accessor surface, so that no
`defineProperty` throw occurs — it completes without error, appends one
descriptor per spec, assigning consecutive offsets starting at the
accumulated byte length, and advances the byte length by the sum of the
strides. -/
theorem declare_append (specs : List (String × PropSpec)) :
    ∀ i : Instance,
    (specs.map Prod.fst).Nodup →
    (∀ k ∈ specs.map Prod.fst, List.lookup k i.meta = none) →
    (∀ k ∈ specs.map Prod.fst, List.lookup k i.accessors = none) →
    ∃ entries : List (String × Descriptor),
      (declare i specs).snd = none ∧
      (declare i specs).fst.meta = i.meta ++ entries ∧
      entries.map Prod.fst = specs.map Prod.fst ∧
      sumWidths entries = sumSpecWidths specs ∧
      contiguousFromB i.byteLength entries = true ∧
      (declare i specs).fst.byteLength = i.byteLength + sumSpecWidths specs ∧
      (declare i specs).fst.data = i.data ∧
      (∀ kd ∈ entries, List.lookup kd.fst specs ≠ none) ∧
      (∀ k0 sp0 rest0, specs = (k0, sp0) :: rest0 →
        ∃ entries2, entries = (k0,
          { type := sp0.type, check := sp0.check, writable := sp0.writable,
            isPrivate := sp0.isPrivate, byteOffset := i.byteLength }) :: entries2) := by
  induction specs with
  | nil =>
    intro i _ _ _
    refine ⟨[], rfl, by simp [declare], rfl, rfl, rfl,
      by simp [declare, sumSpecWidths], rfl, ?_, ?_⟩
    · intro kd hkd; cases hkd
    · intro k0 sp0 rest0 h; cases h
  | cons ksp rest ih =>
    intro i hnodup hfresh hafresh
    obtain ⟨k, sp⟩ := ksp
    simp only [List.map_cons, List.nodup_cons] at hnodup
    have hkfresh : List.lookup k i.meta = none := hfresh k (by simp)
    have hkafresh : List.lookup k i.accessors = none := hafresh k (by simp)
    set desc : Descriptor :=
      { type := sp.type, check := sp.check, writable := sp.writable,
        isPrivate := sp.isPrivate, byteOffset := i.byteLength } with hdesc
    have hfield : declareField i (k, sp) =
        ({ meta := insertJS i.meta k desc,
           accessors := if sp.isPrivate then i.accessors
             else insertJS i.accessors k sp.writable,
           byteLength := i.byteLength + getByteStride sp.type,
           data := i.data }, none) := by
      rw [hdesc]
      exact declareField_ok i k sp hkafresh
    set i2 : Instance :=
      { meta := insertJS i.meta k desc,
        accessors := if sp.isPrivate then i.accessors
          else insertJS i.accessors k sp.writable,
        byteLength := i.byteLength + getByteStride sp.type,
        data := i.data } with hi2
    have hstep : declare i ((k, sp) :: rest) = declare i2 rest :=
      declare_cons_ok i i2 (k, sp) rest hfield
    have hi2meta : i2.meta = i.meta ++ [(k, desc)] := by
      rw [hi2]
      exact insertJS_of_lookup_none i.meta k desc hkfresh
    have hi2len : i2.byteLength = i.byteLength + getByteStride sp.type := rfl
    have hi2data : i2.data = i.data := rfl
    have hfresh2 : ∀ k2 ∈ rest.map Prod.fst, List.lookup k2 i2.meta = none := by
      intro k2 hk2
      have hne : k2 ≠ k := fun he => hnodup.1 (he ▸ hk2)
      rw [hi2meta, lookup_append_left k2 i.meta [(k, desc)] (hfresh k2 (by simp [hk2]))]
      rw [lookup_cons_ne k2 k desc [] hne]
      rfl
    have hafresh2 : ∀ k2 ∈ rest.map Prod.fst, List.lookup k2 i2.accessors = none := by
      intro k2 hk2
      have hne : k2 ≠ k := fun he => hnodup.1 (he ▸ hk2)
      have hbase : List.lookup k2 i.accessors = none := hafresh k2 (by simp [hk2])
      rw [hi2]
      show List.lookup k2 (if sp.isPrivate = true then i.accessors
        else insertJS i.accessors k sp.writable) = none
      cases hp : sp.isPrivate
      · rw [if_neg (show ¬(false = true) by decide)]
        rw [lookup_insertJS_ne i.accessors k2 k sp.writable hne]
        exact hbase
      · rw [if_pos (show true = true from rfl)]
        exact hbase
    obtain ⟨entries2, hsnd2, hmeta2, hkeys2, hsum2, hcont2, hlen2, hdata2, hmem2, _⟩ :=
      ih i2 hnodup.2 hfresh2 hafresh2
    refine ⟨(k, desc) :: entries2, ?_, ?_, ?_, ?_, ?_, ?_, ?_, ?_, ?_⟩
    · rw [hstep]
      exact hsnd2
    · rw [hstep, hmeta2, hi2meta, List.append_assoc]
      rfl
    · simp [hkeys2]
    · simp only [sumWidths, sumSpecWidths, List.map_cons, List.sum_cons] at hsum2 ⊢
      have hd : getByteStride desc.type = getByteStride sp.type := rfl
      omega
    · simp only [contiguousFromB, Bool.and_eq_true, decide_eq_true_eq]
      refine ⟨trivial, ?_⟩
      rw [show i.byteLength + getByteStride desc.type = i2.byteLength from rfl]
      exact hcont2
    · rw [hstep, hlen2, hi2len]
      simp only [sumSpecWidths, List.map_cons, List.sum_cons]
      simp only [sumSpecWidths] at hlen2 ⊢
      omega
    · rw [hstep, hdata2, hi2data]
    · intro kd hkd
      simp only [List.mem_cons] at hkd
      rcases hkd with hkd | hkd
      · subst hkd
        rw [lookup_cons_self]
        simp
      · have := hmem2 kd hkd
        intro hnone
        apply this
        by_cases hkk : kd.fst = k
        · rw [hkk, lookup_cons_self] at hnone
          exact absurd hnone (by simp)
        · rw [lookup_cons_ne kd.fst k sp rest hkk] at hnone
          exact hnone
    · intro k0 sp0 rest0 heq
      injection heq with h1 h2
      injection h1 with hk0 hsp0
      subst hk0
      subst hsp0
      exact ⟨entries2, rfl⟩

/- ## Zero-initialised regions -/

theorem bytesToNatBE_replicate_zero (n : Nat) : bytesToNatBE (List.replicate n 0) = 0 := by
  induction n with
  | zero => rfl
  | succ n ih =>
    rw [show n + 1 = n + 1 from rfl, List.replicate_succ']
    rw [bytesToNatBE_append_one, ih]

theorem readBytes_replicate (L off w : Nat) :
    readBytes (List.replicate L 0) off w = List.replicate (min w (L - off)) 0 := by
  unfold readBytes
  rw [List.drop_replicate, List.take_replicate]

theorem getNumeric_zeros (nk : NumericKind) (L off : Nat) (h : off + nk.byteWidth ≤ L) :
    getNumeric nk (List.replicate L 0) off = .ok (zeroValueOf nk) := by
  have hsz : Data.size (List.replicate L 0) = L := by
    unfold Data.size
    exact List.length_replicate L 0
  have hz : bytesToNatBE (readBytes (List.replicate L 0) off nk.byteWidth) = 0 := by
    rw [readBytes_replicate, bytesToNatBE_replicate_zero]
  unfold getNumeric
  rw [if_pos (show off + nk.byteWidth ≤ Data.size (List.replicate L 0) by omega)]
  cases nk <;> simp only [hz] <;> decide

/- ## Claim C7 -/

/-- C7: the layout width table — 1 byte for Int8 and Uint8; 2 for Int16 and
Uint16; 4 for Int32, Uint32 and Float32; 8 for Float64, BigInt64 and
BigUint64; a fixed 8 bytes for any ClosedSet regardless of the variant
count; the `{speed: Uint8, color: 3-variant ClosedSet}` layout is 9 bytes
wide; and the ClosedSet codec reads and writes only the low-order byte of
the 8-byte reservation. -/
theorem C7_width_table :
    getByteStride (.numeric .Int8) = 1 ∧ getByteStride (.numeric .Uint8) = 1 ∧
    getByteStride (.numeric .Int16) = 2 ∧ getByteStride (.numeric .Uint16) = 2 ∧
    getByteStride (.numeric .Int32) = 4 ∧ getByteStride (.numeric .Uint32) = 4 ∧
    getByteStride (.numeric .Float32) = 4 ∧ getByteStride (.numeric .Float64) = 8 ∧
    getByteStride (.numeric .BigInt64) = 8 ∧ getByteStride (.numeric .BigUint64) = 8 ∧
    (∀ vs : List Value, getByteStride (.closedSet vs) = 8) ∧
    (declare Instance.empty
      [(("speed"), { type := .numeric .Uint8 }),
       (("color"),
        { type := .closedSet [.str ("red"), .str ("green"),
                              .str ("blue")] })]).fst.byteLength = 9 ∧
    (∀ (i : Instance) (k : String) (desc : Descriptor) (vs : List Value) (d : Data) (v : Value),
      List.lookup k i.meta = some desc → desc.type = .closedSet vs → i.data = some d →
      vs.contains v = true → desc.byteOffset + 1 ≤ d.size →
      ∃ d2, (set i k v).fst.data = some d2 ∧ (set i k v).snd = none ∧
        d2.size = d.size ∧ (∀ j, j ≠ desc.byteOffset → d2.byte j = d.byte j) ∧
        d2.byte desc.byteOffset = vs.indexOf v % 256) ∧
    (∀ (i : Instance) (k : String) (desc : Descriptor) (vs : List Value) (d : Data),
      List.lookup k i.meta = some desc → desc.type = .closedSet vs → i.data = some d →
      desc.byteOffset + 1 ≤ d.size →
      get i k = .ok (vs.getD (d.byte desc.byteOffset) .undef)) := by
  refine ⟨by decide, by decide, by decide, by decide, by decide, by decide, by decide,
    by decide, by decide, by decide, fun vs => rfl, by decide, ?_, ?_⟩
  · intro i k desc vs d v hlookup htype hdata hcont hoff
    simp only [set, metaProp_found hlookup, htype, hdata, if_pos hcont, if_pos hoff]
    refine ⟨writeBytes d desc.byteOffset [vs.indexOf v % 256], rfl, trivial, ?_, ?_, ?_⟩
    · exact size_writeBytes d desc.byteOffset [vs.indexOf v % 256] (by simpa using hoff)
    · intro j hj
      apply byte_writeBytes_ne d desc.byteOffset [vs.indexOf v % 256] j (by simpa using hoff)
      simp only [List.length_cons, List.length_nil]
      omega
    · exact byte_writeBytes_self d desc.byteOffset (vs.indexOf v % 256) (by omega)
  · intro i k desc vs d hlookup htype hdata hoff
    simp only [get, metaProp_found hlookup, htype, hdata, if_pos hoff]

/-- C7 witness: the set-writes-one-byte and get-reads-one-byte parts of
`C7_width_table` applied to a concrete bound enum instance. -/
theorem C7_width_table_witness :
    (∃ d2, (set (accept (declare Instance.empty
        [(("c"), { type := .closedSet [.str ("a"), .str ("b")] })]).fst [7, 9])
        ("c") (.str ("b"))).fst.data = some d2 ∧
      (set (accept (declare Instance.empty
        [(("c"), { type := .closedSet [.str ("a"), .str ("b")] })]).fst [7, 9])
        ("c") (.str ("b"))).snd = none ∧
      d2.size = Data.size [7, 9] ∧
      (∀ j, j ≠ 0 → d2.byte j = Data.byte [7, 9] j) ∧
      d2.byte 0 = [Value.str ("a"), Value.str ("b")].indexOf (Value.str ("b")) % 256) ∧
    get (accept (declare Instance.empty
        [(("c"), { type := .closedSet [.str ("a"), .str ("b")] })]).fst [7, 9]) ("c") =
      .ok ([Value.str ("a"), Value.str ("b")].getD (Data.byte [7, 9] 0) .undef) := by
  constructor
  · exact C7_width_table.2.2.2.2.2.2.2.2.2.2.2.2.1
      (accept (declare Instance.empty
        [(("c"), { type := .closedSet [.str ("a"), .str ("b")] })]).fst [7, 9])
      ("c") _ [Value.str ("a"), Value.str ("b")] [7, 9] (.str ("b"))
      rfl rfl rfl (by decide) (by decide)
  · exact C7_width_table.2.2.2.2.2.2.2.2.2.2.2.2.2
      (accept (declare Instance.empty
        [(("c"), { type := .closedSet [.str ("a"), .str ("b")] })]).fst [7, 9])
      ("c") _ [Value.str ("a"), Value.str ("b")] [7, 9]
      rfl rfl rfl (by decide)

/- ## Claim C8 -/

/-- C8 counterexample: `allocateData` with a raw byte count as the size
source reads the absent `_byteLength` slot of a number, so
`new SharedArrayBuffer(undefined)` makes a 0-byte region — not the 5-byte
region the claim promises for a raw byte count of 5. -/
theorem C8_counterexample :
    ((allocateData (declare Instance.empty [(("v"), { type := .numeric .Uint8 })]).fst
        (.rawNumber 5)).data).map Data.size = some 0 ∧ (0 : Nat) ≠ 5 := by
  constructor
  · rfl
  · decide

/-- C8 (amended): `allocateData(instance, sizeSource)` — the size source
defaulting to the instance itself — binds a fresh zero-filled region sized
to the size source's compiled `_byteLength`, replacing any prior binding;
immediately afterwards every declared NumericKind field lying within that
size reads as zero.  The size source must be an object carrying a compiled
layout (the instance or a shape/prototype reference); a raw byte count has
no `_byteLength` slot and yields a zero-length region instead. -/
theorem C8_allocateData (i : Instance) (L n : Nat) :
    (allocateData i (.withLayout L)).data = some (List.replicate L 0) ∧
    allocateDataDefault i = allocateData i (.withLayout i.byteLength) ∧
    (allocateData i (.rawNumber n)).data = some (List.replicate 0 0) ∧
    (∀ k desc nk, List.lookup k i.meta = some desc → desc.type = .numeric nk →
      desc.byteOffset + nk.byteWidth ≤ L →
      get (allocateData i (.withLayout L)) k = .ok (zeroValueOf nk)) := by
  refine ⟨rfl, rfl, rfl, ?_⟩
  intro k desc nk hlookup htype hoff
  have hmeta : (allocateData i (.withLayout L)).meta = i.meta := rfl
  simp only [get, hmeta, metaProp_found hlookup, htype, allocateData,
    SizeSource.lookupByteLength]
  exact getNumeric_zeros nk L desc.byteOffset hoff

/-- C8 witness: `C8_allocateData` applied to a concrete one-field Uint8
shape, whose field reads as zero right after allocation. -/
theorem C8_allocateData_witness :
    (allocateData (declare Instance.empty [(("v"), { type := .numeric .Uint8 })]).fst
      (.withLayout 1)).data = some (List.replicate 1 0) ∧
    get (allocateData (declare Instance.empty [(("v"), { type := .numeric .Uint8 })]).fst
      (.withLayout 1)) ("v") = .ok (zeroValueOf .Uint8) := by
  constructor
  · exact (C8_allocateData (declare Instance.empty [(("v"), { type := .numeric .Uint8 })]).fst
      1 0).1
  · exact (C8_allocateData (declare Instance.empty [(("v"), { type := .numeric .Uint8 })]).fst
      1 0).2.2.2 ("v") _ .Uint8 rfl rfl (by decide)

/- ## Claim C1 -/

/-- C1 counterexample: with variants `["a", "b"]` and stored byte 5, `get`
does not fail — the JavaScript array read `type[5]` yields `undefined`,
which is returned as the value.  The claim's `OutOfRangeIndex` failure does
not exist in the code. -/
theorem C1_counterexample :
    get (accept (declare Instance.empty
        [(("c"), { type := .closedSet [.str ("a"), .str ("b")] })]).fst [5]) ("c") =
      .ok .undef ∧
    ∀ e : Err, get (accept (declare Instance.empty
        [(("c"), { type := .closedSet [.str ("a"), .str ("b")] })]).fst [5]) ("c") ≠
      .error e := by
  refine ⟨by decide, ?_⟩
  intro e he
  rw [show get (accept (declare Instance.empty
      [(("c"), { type := .closedSet [.str ("a"), .str ("b")] })]).fst [5]) ("c") =
      .ok .undef by decide] at he
  cases he

/-- C1 (amended): for a bound instance and a ClosedSet field, `get` reads the
one byte at the field's byteOffset and treats it as an index into the
variant list, returning the variant at that index when the index is below
the variant count; when the stored index is at or above the count the array
read yields JavaScript `undefined`, which is returned as an ordinary value —
no error is raised. -/
theorem C1_closedSet_get (i : Instance) (k : String) (desc : Descriptor) (vs : List Value)
    (d : Data) (hlookup : List.lookup k i.meta = some desc)
    (htype : desc.type = .closedSet vs) (hdata : i.data = some d)
    (hoff : desc.byteOffset + 1 ≤ d.size) :
    get i k = .ok (vs.getD (d.byte desc.byteOffset) .undef) ∧
    (∀ hlt : d.byte desc.byteOffset < vs.length,
      get i k = .ok (vs.get ⟨d.byte desc.byteOffset, hlt⟩)) ∧
    (vs.length ≤ d.byte desc.byteOffset → get i k = .ok .undef) := by
  have hmain : get i k = .ok (vs.getD (d.byte desc.byteOffset) .undef) := by
    simp only [get, metaProp_found hlookup, htype, hdata, if_pos hoff]
  refine ⟨hmain, ?_, ?_⟩
  · intro hlt
    rw [hmain]
    congr 1
    rw [List.getD_eq_getElem?_getD, List.getElem?_eq_getElem hlt]
    simp [List.get_eq_getElem]
  · intro hge
    rw [hmain]
    congr 1
    rw [List.getD_eq_getElem?_getD, List.getElem?_eq_none hge]
    rfl

/-- C1 witness: `C1_closedSet_get` applied to a concrete bound enum instance
whose region stores the in-range index 1. -/
theorem C1_closedSet_get_witness :
    get (accept (declare Instance.empty
        [(("c"), { type := .closedSet [.str ("a"), .str ("b")] })]).fst [1]) ("c") =
      .ok ([Value.str ("a"), Value.str ("b")].getD (Data.byte [1] 0) .undef) :=
  (C1_closedSet_get (accept (declare Instance.empty
      [(("c"), { type := .closedSet [.str ("a"), .str ("b")] })]).fst [1])
    ("c") _ [Value.str ("a"), Value.str ("b")] [1] rfl rfl rfl (by decide)).1

/- ## Claim C2 -/

/-- C10: a ClosedSet `set` with a value outside the variant list performs the
membership test before any region access: the call throws InvalidVariant
and the instance — bound region bytes and layout alike — is returned
entirely unchanged. -/
theorem C10_invalidVariant_no_write (i : Instance) (k : String) (desc : Descriptor)
    (vs : List Value) (v : Value) (hlookup : List.lookup k i.meta = some desc)
    (htype : desc.type = .closedSet vs) (hnotin : vs.contains v = false) :
    set i k v = (i, some (.invalidVariant k v)) := by
  simp only [set, metaProp_found hlookup, htype]
  rw [if_neg (by rw [hnotin]; exact Bool.false_ne_true)]

/-- C10 witness: `C10_invalidVariant_no_write` on a concrete bound enum
instance and an unlisted value: the region bytes are untouched. -/
theorem C10_invalidVariant_no_write_witness :
    set (accept (declare Instance.empty
        [(("c"), { type := .closedSet [.str ("a"), .str ("b")] })]).fst [1, 2, 3])
      ("c") (.str ("z")) =
      (accept (declare Instance.empty
        [(("c"), { type := .closedSet [.str ("a"), .str ("b")] })]).fst [1, 2, 3],
       some (.invalidVariant ("c") (.str ("z")))) :=
  C10_invalidVariant_no_write (accept (declare Instance.empty
      [(("c"), { type := .closedSet [.str ("a"), .str ("b")] })]).fst [1, 2, 3])
    ("c") _ [Value.str ("a"), Value.str ("b")] (.str ("z")) rfl rfl (by decide)

/- ## Claim C3 -/

theorem indexOf_getElem_nodup (vs : List Value) (hnd : vs.Nodup) (idx : Nat)
    (hidx : idx < vs.length) : vs.indexOf vs[idx] = idx := by
  have hmem : vs[idx] ∈ vs := List.getElem_mem hidx
  have hlt : vs.indexOf vs[idx] < vs.length := List.indexOf_lt_length.mpr hmem
  have heq : vs[vs.indexOf vs[idx]] = vs[idx] := List.getElem_indexOf hlt
  have hinj := List.nodup_iff_injective_get.mp hnd
  have h2 : (⟨vs.indexOf vs[idx], hlt⟩ : Fin vs.length) = ⟨idx, hidx⟩ := by
    apply hinj
    simp only [List.get_eq_getElem]
    exact heq
  exact congrArg Fin.val h2

/-- C3: enum fidelity.  For a ClosedSet field with distinct variants, at most
256 of them, on a bound instance with the field's byte in range: writing any
listed variant succeeds and reading the field back returns exactly that
variant; writing any value outside the list fails with InvalidVariant and
stores nothing (the instance is returned unchanged). -/
theorem C3_enum_fidelity (i : Instance) (k : String) (desc : Descriptor) (vs : List Value)
    (d : Data) (hlookup : List.lookup k i.meta = some desc)
    (htype : desc.type = .closedSet vs) (hdata : i.data = some d)
    (hoff : desc.byteOffset + 1 ≤ d.size)
    (hnodup : vs.Nodup) (hlen : vs.length ≤ 256) :
    (∀ (idx : Nat) (hidx : idx < vs.length),
      (set i k vs[idx]).snd = none ∧
      get (set i k vs[idx]).fst k = .ok vs[idx]) ∧
    (∀ w, vs.contains w = false → set i k w = (i, some (.invalidVariant k w))) := by
  constructor
  · intro idx hidx
    have hmem : vs[idx] ∈ vs := List.getElem_mem hidx
    have hcont : vs.contains vs[idx] = true := List.elem_iff.mpr hmem
    have hindexOf : vs.indexOf vs[idx] = idx := indexOf_getElem_nodup vs hnodup idx hidx
    have hmod : vs.indexOf vs[idx] % 256 = idx := by
      rw [hindexOf]
      omega
    have hset : set i k vs[idx] =
        ({ i with data := some (writeBytes d desc.byteOffset [idx]) }, none) := by
      simp only [set, metaProp_found hlookup, htype, hdata, if_pos hcont, if_pos hoff, hmod]
    rw [hset]
    refine ⟨rfl, ?_⟩
    have hbyte : (writeBytes d desc.byteOffset [idx]).byte desc.byteOffset = idx :=
      byte_writeBytes_self d desc.byteOffset idx (by omega)
    have hsize : (writeBytes d desc.byteOffset [idx]).size = d.size :=
      size_writeBytes d desc.byteOffset [idx] (by simpa using hoff)
    simp only [get, metaProp_found hlookup, htype]
    rw [if_pos (by rw [hsize]; exact hoff), hbyte]
    congr 1
    rw [List.getD_eq_getElem?_getD, List.getElem?_eq_getElem hidx]
    rfl
  · intro w hw
    simp only [set, metaProp_found hlookup, htype]
    rw [if_neg (by rw [hw]; exact Bool.false_ne_true)]

/-- C3 witness: `C3_enum_fidelity` on a concrete bound two-variant enum:
variant index 1 round-trips. -/
theorem C3_enum_fidelity_witness :
    (set (accept (declare Instance.empty
        [(("c"), { type := .closedSet [.str ("a"), .str ("b")] })]).fst [9])
      ("c") ([Value.str ("a"), Value.str ("b")].get ⟨1, by decide⟩)).snd = none ∧
    get (set (accept (declare Instance.empty
        [(("c"), { type := .closedSet [.str ("a"), .str ("b")] })]).fst [9])
      ("c") ([Value.str ("a"), Value.str ("b")].get ⟨1, by decide⟩)).fst ("c") =
      .ok ([Value.str ("a"), Value.str ("b")].get ⟨1, by decide⟩) :=
  (C3_enum_fidelity (accept (declare Instance.empty
      [(("c"), { type := .closedSet [.str ("a"), .str ("b")] })]).fst [9])
    ("c") _ [Value.str ("a"), Value.str ("b")] [9]
    rfl rfl rfl (by decide) (by decide) (by decide)).1 1 (by decide)

/- ## Claim C5 -/

/-- A concrete bound one-field instance used against C5: its layout has the
single Uint8 field `h`. -/
def c5inst : Instance :=
  accept (declare Instance.empty [(("h"), { type := .numeric .Uint8 })]).fst [0]

/-- C5 counterexample: `toString` is absent from the layout, yet `assign`
does not silently ignore it — the JavaScript `in` test consults the
prototype chain, so the name inherited from `Object.prototype` passes the
membership test; the inherited member has no `check`, and the subsequent
`set` reads `instance[_data]["setundefined"]`, which is not a function:
the call aborts with a TypeError instead of skipping the key. -/
theorem C5_counterexample :
    List.lookup ("toString") c5inst.meta = none ∧
    objectProtoKeys.contains ("toString") = true ∧
    assign c5inst [(("toString"), .number 0)] = (c5inst, some .typeError) ∧
    some Err.typeError ≠ (none : Option Err) := by
  refine ⟨rfl, by decide, rfl, by decide⟩

/-- C5 (amended): `assign` iterates the supplied keys in order and processes
those passing the JavaScript `in` test against the metadata object — the
declared fields together with the names inherited from `Object.prototype`.
A supplied key that is neither is silently skipped.  A declared key first
runs its validator and then the unchecked `set`, continuing with the
updated instance; a validator throw aborts the call at once with that error
and the instance exactly as left by the earlier keys (the failing field's
bytes untouched, earlier writes kept — not transactional); an error from
`set` aborts the same way.  A supplied key naming an `Object.prototype`
member but no declared field skips the validator (the inherited member has
no `check`) and then fails inside `set`: unbound, the `_data` read throws
(NotAllocated); bound, the DataView method read throws a TypeError — the
call aborts instead of ignoring the key. -/
theorem C5_assign_semantics (i : Instance) :
    assign i [] = (i, none) ∧
    (∀ k v rest, List.lookup k i.meta = none → objectProtoKeys.contains k = false →
      assign i ((k, v) :: rest) = assign i rest) ∧
    (∀ k v rest, (List.lookup k i.meta).isSome = true → runCheck i k v = none →
      ∀ i2, set i k v = (i2, none) → assign i ((k, v) :: rest) = assign i2 rest) ∧
    (∀ k v rest e, (List.lookup k i.meta).isSome = true → runCheck i k v = some e →
      assign i ((k, v) :: rest) = (i, some e)) ∧
    (∀ k v rest i2 e, (List.lookup k i.meta).isSome = true → runCheck i k v = none →
      set i k v = (i2, some e) → assign i ((k, v) :: rest) = (i2, some e)) ∧
    (∀ k v rest, List.lookup k i.meta = none → objectProtoKeys.contains k = true →
      i.data = none → assign i ((k, v) :: rest) = (i, some .notAllocated)) ∧
    (∀ k v rest d, List.lookup k i.meta = none → objectProtoKeys.contains k = true →
      i.data = some d → assign i ((k, v) :: rest) = (i, some .typeError)) := by
  refine ⟨rfl, ?_, ?_, ?_, ?_, ?_, ?_⟩
  · intro k v rest hnone hpk
    simp only [assign, hnone, hpk, Option.isSome_none, Bool.or_false,
      Bool.false_eq_true, if_false]
  · intro k v rest hsome hcheck i2 hset
    simp only [assign, hsome, Bool.true_or, if_true, hcheck, hset]
  · intro k v rest e hsome hcheck
    simp only [assign, hsome, Bool.true_or, if_true, hcheck]
  · intro k v rest i2 e hsome hcheck hset
    simp only [assign, hsome, Bool.true_or, if_true, hcheck, hset]
  · intro k v rest hnone hpk hdata
    have hcheck : runCheck i k v = none := by
      simp only [runCheck, hnone]
    have hset : set i k v = (i, some .notAllocated) := by
      simp only [set, metaProp_inherited hnone hpk, hdata]
    simp only [assign, hnone, hpk, Option.isSome_none, Bool.false_or, if_true, hcheck, hset]
  · intro k v rest d hnone hpk hdata
    have hcheck : runCheck i k v = none := by
      simp only [runCheck, hnone]
    have hset : set i k v = (i, some .typeError) := by
      simp only [set, metaProp_inherited hnone hpk, hdata]
    simp only [assign, hnone, hpk, Option.isSome_none, Bool.false_or, if_true, hcheck, hset]

/-- C5 witness: `C5_assign_semantics` on a concrete bound instance with a
rejecting validator: the assign call aborts with the validator's error and
the instance unchanged. -/
theorem C5_assign_semantics_witness :
    assign (accept (declare Instance.empty
        [(("h"), { type := .numeric .Float32,
                   check := some (fun v =>
                     if v = .number 0 then some (.validation ("neg")) else none) })]).fst
        [0, 0, 0, 0])
      [(("h"), .number 0)] =
      (accept (declare Instance.empty
        [(("h"), { type := .numeric .Float32,
                   check := some (fun v =>
                     if v = .number 0 then some (.validation ("neg")) else none) })]).fst
        [0, 0, 0, 0], some (.validation ("neg"))) :=
  (C5_assign_semantics (accept (declare Instance.empty
      [(("h"), { type := .numeric .Float32,
                 check := some (fun v =>
                   if v = .number 0 then some (.validation ("neg")) else none) })]).fst
      [0, 0, 0, 0])).2.2.2.1
    ("h") (.number 0) [] (.validation ("neg")) rfl rfl

/- ## Claim C6 -/

theorem lookup_map {α β : Type} (l : List (String × α)) (k : String) (f : α → β) :
    List.lookup k (l.map (fun kd => (kd.fst, f kd.snd))) = (List.lookup k l).map f := by
  induction l with
  | nil => rfl
  | cons kv rest ih =>
    obtain ⟨k1, a1⟩ := kv
    simp only [List.map_cons]
    by_cases hk : k = k1
    · subst hk
      rw [lookup_cons_self, lookup_cons_self]
      rfl
    · rw [lookup_cons_ne k k1 (f a1) _ hk, lookup_cons_ne k k1 a1 rest hk, ih]

/-- `set` reads only the `type` and `byteOffset` of a descriptor: mapping any
type- and offset-preserving transformation over the metadata leaves its
region effect and its thrown error unchanged. -/
theorem set_meta_map (i : Instance) (k : String) (v : Value) (f : Descriptor → Descriptor)
    (hf : ∀ dd : Descriptor, (f dd).type = dd.type ∧ (f dd).byteOffset = dd.byteOffset) :
    (set { i with meta := i.meta.map (fun kd => (kd.fst, f kd.snd)) } k v).fst.data =
      (set i k v).fst.data ∧
    (set { i with meta := i.meta.map (fun kd => (kd.fst, f kd.snd)) } k v).snd =
      (set i k v).snd := by
  cases hm : List.lookup k i.meta with
  | none =>
    have hm2 : List.lookup k (i.meta.map (fun kd => (kd.fst, f kd.snd))) = none := by
      rw [lookup_map, hm]
      rfl
    cases hpk : objectProtoKeys.contains k
    · have h1 := metaProp_absent hm hpk
      have h2 := metaProp_absent hm2 hpk
      simp only [set, h1, h2]
      exact ⟨by trivial, by trivial⟩
    · have h1 := metaProp_inherited hm hpk
      have h2 := metaProp_inherited hm2 hpk
      cases hd : i.data with
      | none =>
        simp only [set, h1, h2, hd]
        exact ⟨by trivial, by trivial⟩
      | some d =>
        simp only [set, h1, h2, hd]
        exact ⟨by trivial, by trivial⟩
  | some desc =>
    obtain ⟨ht, hb⟩ := hf desc
    have hm2 : List.lookup k (i.meta.map (fun kd => (kd.fst, f kd.snd))) = some (f desc) := by
      rw [lookup_map, hm]
      rfl
    have h1 := metaProp_found hm
    have h2 := metaProp_found hm2
    cases htype : desc.type with
    | numeric nk =>
      have htype2 : (f desc).type = .numeric nk := by rw [ht, htype]
      cases hd : i.data with
      | none =>
        simp only [set, h1, h2, ht, hb, htype, htype2, hd]
        exact ⟨by trivial, by trivial⟩
      | some d =>
        cases hsn : setNumeric nk d desc.byteOffset v with
        | ok d2 =>
          simp only [set, h1, h2, ht, hb, htype, htype2, hd, hsn]
          exact ⟨by trivial, by trivial⟩
        | error e =>
          simp only [set, h1, h2, ht, hb, htype, htype2, hd, hsn]
          exact ⟨by trivial, by trivial⟩
    | closedSet vs =>
      have htype2 : (f desc).type = .closedSet vs := by rw [ht, htype]
      by_cases hc : vs.contains v = true
      · cases hd : i.data with
        | none =>
          simp only [set, h1, h2, ht, hb, htype, htype2, hd, if_pos hc]
          exact ⟨by trivial, by trivial⟩
        | some d =>
          by_cases ho : desc.byteOffset + 1 ≤ d.size
          · simp only [set, h1, h2, ht, hb, htype, htype2, hd, if_pos hc, if_pos ho]
            exact ⟨by trivial, by trivial⟩
          · simp only [set, h1, h2, ht, hb, htype, htype2, hd, if_pos hc, if_neg ho]
            exact ⟨by trivial, by trivial⟩
      · simp only [set, h1, h2, ht, hb, htype, htype2]
        rw [if_neg hc, if_neg hc]
        exact ⟨by trivial, by trivial⟩

/-- A key outside the spec list keeps its accessor entry across `declare`,
whether or not the call aborts on a redeclared name. -/
theorem declare_accessors_not_mem (specs : List (String × PropSpec)) :
    ∀ (i : Instance) (k : String), k ∉ specs.map Prod.fst →
      List.lookup k (declare i specs).fst.accessors = List.lookup k i.accessors := by
  induction specs with
  | nil => intro i k _; rfl
  | cons ksp rest ih =>
    intro i k hk
    obtain ⟨k0, sp0⟩ := ksp
    simp only [List.map_cons, List.mem_cons, not_or] at hk
    cases hp : sp0.isPrivate
    · cases ha : List.lookup k0 i.accessors with
      | none =>
        rw [declare_cons_ok i _ (k0, sp0) rest (declareField_fresh i k0 sp0 hp ha)]
        rw [ih _ k hk.2]
        exact lookup_insertJS_ne i.accessors k k0 sp0.writable hk.1
      | some b =>
        rw [declare_cons_err i _ (k0, sp0) rest .typeError
          (declareField_redefine i k0 sp0 b hp ha)]
    · rw [declare_cons_ok i _ (k0, sp0) rest (declareField_private i k0 sp0 hp)]
      rw [ih _ k hk.2]

theorem declare_accessors_mem (specs : List (String × PropSpec)) :
    ∀ (i : Instance) (k : String) (sp : PropSpec), (specs.map Prod.fst).Nodup →
      (∀ k2 ∈ specs.map Prod.fst, List.lookup k2 i.accessors = none) →
      (k, sp) ∈ specs → sp.isPrivate = false →
      List.lookup k (declare i specs).fst.accessors = some sp.writable := by
  induction specs with
  | nil => intro i k sp _ _ hmem; cases hmem
  | cons ksp rest ih =>
    intro i k sp hnodup hfresh hmem hpriv
    obtain ⟨k0, sp0⟩ := ksp
    simp only [List.map_cons, List.nodup_cons] at hnodup
    simp only [List.mem_cons] at hmem
    have hafresh0 : List.lookup k0 i.accessors = none := hfresh k0 (by simp)
    have hstep : declare i ((k0, sp0) :: rest) =
        declare (declareField i (k0, sp0)).fst rest :=
      declare_cons_ok i (declareField i (k0, sp0)).fst (k0, sp0) rest
        (by rw [declareField_ok i k0 sp0 hafresh0])
    rcases hmem with hmem | hmem
    · injection hmem with hk0 hsp0
      subst hk0
      subst hsp0
      rw [hstep, declare_accessors_not_mem rest (declareField i (k, sp)).fst k hnodup.1]
      rw [declareField_fresh i k sp hpriv hafresh0]
      exact lookup_insertJS_self i.accessors k sp.writable
    · have hfresh2 : ∀ k2 ∈ rest.map Prod.fst,
          List.lookup k2 (declareField i (k0, sp0)).fst.accessors = none := by
        intro k2 hk2
        have hne : k2 ≠ k0 := fun he => hnodup.1 (he ▸ hk2)
        cases hp : sp0.isPrivate
        · rw [declareField_fresh i k0 sp0 hp hafresh0]
          rw [lookup_insertJS_ne i.accessors k2 k0 sp0.writable hne]
          exact hfresh k2 (by simp [hk2])
        · rw [declareField_private i k0 sp0 hp]
          exact hfresh k2 (by simp [hk2])
      rw [hstep]
      exact ih (declareField i (k0, sp0)).fst k sp hnodup.2 hfresh2 hmem hpriv

/-- C6: the explicit `set` never invokes a validator (its effect is unchanged
when all validators are erased) and ignores the `writable` flag (so it still
writes `writable:false` fields); the ambient setter installed by `declare`
first runs the validator — a throw aborts with the instance unchanged — and
only then delegates to the unchecked `set`; for a `writable:false`,
non-private field `declare` installs an accessor without a setter; and the
explicit `assign` still runs the validator and then writes such fields. -/
theorem C6_validator_writability (i : Instance) :
    (∀ k v, (set (eraseChecks i) k v).fst.data = (set i k v).fst.data ∧
      (set (eraseChecks i) k v).snd = (set i k v).snd) ∧
    (∀ k v b, (set (withWritable i b) k v).fst.data = (set i k v).fst.data ∧
      (set (withWritable i b) k v).snd = (set i k v).snd) ∧
    (∀ k v e desc, List.lookup k i.meta = some desc → runCheck i k v = some e →
      protoSetter i k v = (i, some e)) ∧
    (∀ k v desc, List.lookup k i.meta = some desc → runCheck i k v = none →
      protoSetter i k v = set i k v) ∧
    (∀ specs k sp, (specs.map Prod.fst).Nodup →
      (∀ k2 ∈ specs.map Prod.fst, List.lookup k2 i.accessors = none) →
      (k, sp) ∈ specs → sp.isPrivate = false →
      List.lookup k (declare i specs).fst.accessors = some sp.writable) ∧
    (∀ k v desc, List.lookup k i.meta = some desc → desc.writable = false →
      (runCheck i k v = none → assign i [(k, v)] = set i k v) ∧
      (∀ e, runCheck i k v = some e → assign i [(k, v)] = (i, some e))) := by
  refine ⟨?_, ?_, ?_, ?_, ?_, ?_⟩
  · intro k v
    exact set_meta_map i k v (fun dd => { dd with check := none }) (fun dd => ⟨rfl, rfl⟩)
  · intro k v b
    exact set_meta_map i k v (fun dd => { dd with writable := b }) (fun dd => ⟨rfl, rfl⟩)
  · intro k v e desc hlookup hcheck
    simp only [protoSetter, hlookup, hcheck]
  · intro k v desc hlookup hcheck
    simp only [protoSetter, hlookup, hcheck]
  · intro specs k sp hnodup hfresh hmem hpriv
    exact declare_accessors_mem specs i k sp hnodup hfresh hmem hpriv
  · intro k v desc hlookup hwritable
    have hsome : (List.lookup k i.meta).isSome = true := by rw [hlookup]; rfl
    constructor
    · intro hcheck
      simp only [assign, hsome, Bool.true_or, if_true, hcheck]
      cases hset : set i k v with
      | mk i2 oe =>
        cases oe with
        | none => rfl
        | some e => rfl
    · intro e hcheck
      simp only [assign, hsome, Bool.true_or, if_true, hcheck]

/-- A concrete spec used to witness C6: an unwritable Uint8 field whose
validator rejects everything. -/
def c6spec : PropSpec :=
  { type := .numeric .Uint8,
    check := some (fun _ => some (.validation ("no"))),
    writable := false }

/-- A concrete bound instance carrying `c6spec`. -/
def c6inst : Instance := accept (declare Instance.empty [(("v"), c6spec)]).fst [3]

/-- C6 witness: `C6_validator_writability` applied to `c6inst` — the
validator-erased set agrees with set, declare installed a setter-less
accessor for the unwritable field, and assign propagates the validator's
rejection with the instance unchanged. -/
theorem C6_validator_writability_witness :
    ((set (eraseChecks c6inst) ("v") (.number 0)).fst.data =
        (set c6inst ("v") (.number 0)).fst.data ∧
      (set (eraseChecks c6inst) ("v") (.number 0)).snd =
        (set c6inst ("v") (.number 0)).snd) ∧
    List.lookup ("v") (declare Instance.empty [(("v"), c6spec)]).fst.accessors =
      some c6spec.writable ∧
    assign c6inst [(("v"), .number 0)] = (c6inst, some (.validation ("no"))) := by
  refine ⟨(C6_validator_writability c6inst).1 ("v") (.number 0), ?_, ?_⟩
  · exact (C6_validator_writability Instance.empty).2.2.2.2.1
      [(("v"), c6spec)] ("v") c6spec (by decide) (fun k2 _ => rfl) (by simp) rfl
  · exact ((C6_validator_writability c6inst).2.2.2.2.2 ("v") (.number 0) _ rfl rfl).2
      (.validation ("no")) rfl

/- ## Claim C4 -/

/-- C4 counterexample: redeclaring a private field name — private fields
install no accessor pair, so neither `declare` call throws — keeps a single
descriptor in the registry (overwritten in place with the new offset) yet
still advances the total width, so the total width (2) is not the sum of
the registry's descriptor widths (1) — the claimed invariant fails for
overlapping key sets. -/
theorem C4_counterexample :
    (declare (declare Instance.empty
        [(("x"), { type := .numeric .Uint8, isPrivate := true })]).fst
      [(("x"), { type := .numeric .Uint8, isPrivate := true })]).snd = none ∧
    (declare (declare Instance.empty
        [(("x"), { type := .numeric .Uint8, isPrivate := true })]).fst
      [(("x"), { type := .numeric .Uint8, isPrivate := true })]).fst.byteLength = 2 ∧
    sumWidths (declare (declare Instance.empty
        [(("x"), { type := .numeric .Uint8, isPrivate := true })]).fst
      [(("x"), { type := .numeric .Uint8, isPrivate := true })]).fst.meta = 1 ∧
    (2 : Nat) ≠ 1 := by
  refine ⟨rfl, rfl, rfl, by decide⟩

/-- C4 (amended): provided no field name is declared twice across the two
calls, both calls complete without a `defineProperty` throw and declaring
specs A and then specs B on one shape yields a total width of
width(A) + width(B), B's first field sits at offset width(A), and the
registry's descriptors are contiguous from offset 0, monotonic,
non-overlapping, and sum to the total width in declaration order. -/
theorem C4_layered_compile (A B : List (String × PropSpec))
    (hnodup : ((A ++ B).map Prod.fst).Nodup) :
    (declare Instance.empty A).snd = none ∧
    (declare (declare Instance.empty A).fst B).snd = none ∧
    (declare (declare Instance.empty A).fst B).fst.byteLength =
      sumSpecWidths A + sumSpecWidths B ∧
    (∀ k sp rest, B = (k, sp) :: rest →
      ∃ desc,
        List.lookup k (declare (declare Instance.empty A).fst B).fst.meta = some desc ∧
        desc.byteOffset = sumSpecWidths A) ∧
    contiguousFromB 0 (declare (declare Instance.empty A).fst B).fst.meta = true ∧
    sumWidths (declare (declare Instance.empty A).fst B).fst.meta =
      (declare (declare Instance.empty A).fst B).fst.byteLength ∧
    (declare (declare Instance.empty A).fst B).fst.meta.Pairwise
      (fun a b => a.snd.byteOffset + getByteStride a.snd.type ≤ b.snd.byteOffset) ∧
    (declare (declare Instance.empty A).fst B).fst.meta.Pairwise
      (fun a b => a.snd.byteOffset < b.snd.byteOffset) := by
  rw [List.map_append, List.nodup_append] at hnodup
  obtain ⟨hAn, hBn, hdisj⟩ := hnodup
  obtain ⟨eA, hsndA, hmA0, hkA, hsA, hcA0, hlA, _, _, _⟩ :=
    declare_append A Instance.empty hAn (fun k _ => rfl) (fun k _ => rfl)
  have hmA : (declare Instance.empty A).fst.meta = eA := by
    rw [hmA0]
    rfl
  have hcA : contiguousFromB 0 eA = true := hcA0
  have hfreshB : ∀ k ∈ B.map Prod.fst,
      List.lookup k (declare Instance.empty A).fst.meta = none := by
    intro k hk
    rw [hmA]
    apply lookup_eq_none_of_not_mem
    rw [hkA]
    exact fun hmem => hdisj hmem hk
  have haccB : ∀ k ∈ B.map Prod.fst,
      List.lookup k (declare Instance.empty A).fst.accessors = none := by
    intro k hk
    rw [declare_accessors_not_mem A Instance.empty k (fun hmem => hdisj hmem hk)]
    rfl
  obtain ⟨eB, hsndB, hmB, hkB, hsB, hcB, hlB, _, _, hheadB⟩ :=
    declare_append B (declare Instance.empty A).fst hBn hfreshB haccB
  have hlA0 : (declare Instance.empty A).fst.byteLength = sumSpecWidths A := by
    rw [hlA]
    simp [Instance.empty]
  have hmeta : (declare (declare Instance.empty A).fst B).fst.meta = eA ++ eB := by
    rw [hmB, hmA]
  have hwidth : (declare (declare Instance.empty A).fst B).fst.byteLength =
      sumSpecWidths A + sumSpecWidths B := by
    rw [hlB, hlA0]
  have hcont :
      contiguousFromB 0 (declare (declare Instance.empty A).fst B).fst.meta = true := by
    rw [hmeta]
    apply contiguous_append eA eB 0
    · exact hcA
    · rw [Nat.zero_add, hsA, ← hlA0]
      exact hcB
  refine ⟨hsndA, hsndB, hwidth, ?_, hcont, ?_, ?_, ?_⟩
  · intro k sp rest hB
    obtain ⟨e2, he2⟩ := hheadB k sp rest hB
    have hnoneA : List.lookup k eA = none := by
      apply lookup_eq_none_of_not_mem
      rw [hkA]
      intro hmem
      apply hdisj hmem
      rw [hB]
      simp
    refine ⟨{ type := sp.type, check := sp.check, writable := sp.writable,
              isPrivate := sp.isPrivate,
              byteOffset := (declare Instance.empty A).fst.byteLength }, ?_, hlA0⟩
    rw [hmeta, lookup_append_left k eA eB hnoneA, he2]
    exact lookup_cons_self k _ e2
  · rw [hmeta, sumWidths_append, hsA, hsB, hwidth]
  · rw [hmeta]
    have := contiguous_pairwise (eA ++ eB) 0 (by rw [← hmeta]; exact hcont)
    exact this
  · rw [hmeta]
    have hp := contiguous_pairwise (eA ++ eB) 0 (by rw [← hmeta]; exact hcont)
    refine hp.imp ?_
    intro a b hab
    have := getByteStride_pos a.snd.type
    omega

/-- C4 witness: `C4_layered_compile` on the concrete speed/color pair of
spec lists: total width is additive and the second call's first field starts
at the first call's width. -/
theorem C4_layered_compile_witness :
    (declare (declare Instance.empty [(("speed"), { type := .numeric .Uint8 })]).fst
      [(("color"),
        { type := .closedSet [.str ("red"), .str ("green"),
                              .str ("blue")] })]).fst.byteLength =
      sumSpecWidths [(("speed"), { type := .numeric .Uint8 })] +
        sumSpecWidths [(("color"),
          { type := .closedSet [.str ("red"), .str ("green"), .str ("blue")] })] ∧
    ∃ desc, List.lookup ("color")
        (declare (declare Instance.empty [(("speed"), { type := .numeric .Uint8 })]).fst
          [(("color"),
            { type := .closedSet [.str ("red"), .str ("green"),
                                  .str ("blue")] })]).fst.meta =
        some desc ∧
      desc.byteOffset = sumSpecWidths [(("speed"), { type := .numeric .Uint8 })] := by
  constructor
  · exact (C4_layered_compile [(("speed"), { type := .numeric .Uint8 })]
      [(("color"), { type := .closedSet [.str ("red"), .str ("green"), .str ("blue")] })]
      (by decide)).2.2.1
  · exact (C4_layered_compile [(("speed"), { type := .numeric .Uint8 })]
      [(("color"), { type := .closedSet [.str ("red"), .str ("green"), .str ("blue")] })]
      (by decide)).2.2.2.1 ("color") _ [] rfl

/- ## Claim C9 -/

/-- Lift a codec-level store/load fact through `set` and `get` on a bound
instance. -/
theorem set_get_lift (i : Instance) (k : String) (desc : Descriptor) (nk : NumericKind)
    (d d2 : Data) (v out : Value)
    (hlookup : List.lookup k i.meta = some desc) (htype : desc.type = .numeric nk)
    (hdata : i.data = some d)
    (hsn : setNumeric nk d desc.byteOffset v = .ok d2)
    (hgn : getNumeric nk d2 desc.byteOffset = .ok out) :
    (set i k v).snd = none ∧ (set i k v).fst.data = some d2 ∧
      get (set i k v).fst k = .ok out := by
  have hset : set i k v = ({ i with data := some d2 }, none) := by
    simp only [set, metaProp_found hlookup, htype, hdata, hsn]
  rw [hset]
  refine ⟨rfl, rfl, ?_⟩
  simp only [get, metaProp_found hlookup, htype]
  exact hgn

/-- The byte width and signedness of the integer kinds. -/
def intWidth : NumericKind → Option (Nat × Bool)
  | .Int8 => some (1, true)
  | .Uint8 => some (1, false)
  | .Int16 => some (2, true)
  | .Uint16 => some (2, false)
  | .Int32 => some (4, true)
  | .Uint32 => some (4, false)
  | _ => none

/-- The value an integer field reads back after an integer `x` is stored:
`x` reduced modulo `2 ^ (8 w)`, reinterpreted through two's complement for
the signed kinds. -/
def storedInt (w : Nat) (sg : Bool) (x : Int) : Int :=
  if sg then toSigned w ((x % 2 ^ (8 * w)).toNat) else (((x % 2 ^ (8 * w)).toNat : Nat) : Int)

/-- Codec-level truncation rule for the integer kinds: storing the exact
number `x` (any magnitude below `2 ^ 53`) stores `x % 2 ^ (8 w)` and reads
back as `storedInt`. -/
theorem setNumeric_int_stored (nk : NumericKind) (w : Nat) (sg : Bool)
    (hwk : intWidth nk = some (w, sg)) (d : Data) (off : Nat) (x : Int)
    (h : off + w ≤ d.size) (hna : x.natAbs < 2 ^ 53) :
    ∃ d2, setNumeric nk d off (.number (intToF64Bits x)) = .ok d2 ∧
      getNumeric nk d2 off = .ok (.number (intToF64Bits (storedInt w sg x))) := by
  have htd : truncDecodeF64 (intToF64Bits x) = x := truncDecodeF64_intToF64Bits x hna
  cases nk with
  | Int8 =>
    obtain ⟨hw, hsg⟩ := Prod.mk.injEq 1 true w sg ▸ Option.some.inj hwk
    subst hw
    subst hsg
    have hu : (x % (2 : Int) ^ (8 * 1)).toNat < 2 ^ (8 * 1) := emod_toNat_lt x 1
    refine ⟨writeBytes d off (natToBytesBE 1 ((x % 2 ^ (8 * 1)).toNat)), ?_, ?_⟩
    · simp only [setNumeric, NumericKind.isBig, NumericKind.byteWidth, toNumberBits, htd,
        Bool.false_eq_true, if_false, if_pos h]
    · have hsize : (writeBytes d off (natToBytesBE 1 ((x % 2 ^ (8 * 1)).toNat))).size =
          d.size := by
        apply size_writeBytes
        rw [length_natToBytesBE]
        exact h
      have hload := store_load 1 ((x % 2 ^ (8 * 1)).toNat) d off h hu
      simp only [getNumeric, NumericKind.byteWidth, hsize, if_pos h, hload, storedInt, if_true]
  | Uint8 =>
    obtain ⟨hw, hsg⟩ := Prod.mk.injEq 1 false w sg ▸ Option.some.inj hwk
    subst hw
    subst hsg
    have hu : (x % (2 : Int) ^ (8 * 1)).toNat < 2 ^ (8 * 1) := emod_toNat_lt x 1
    refine ⟨writeBytes d off (natToBytesBE 1 ((x % 2 ^ (8 * 1)).toNat)), ?_, ?_⟩
    · simp only [setNumeric, NumericKind.isBig, NumericKind.byteWidth, toNumberBits, htd,
        Bool.false_eq_true, if_false, if_pos h]
    · have hsize : (writeBytes d off (natToBytesBE 1 ((x % 2 ^ (8 * 1)).toNat))).size =
          d.size := by
        apply size_writeBytes
        rw [length_natToBytesBE]
        exact h
      have hload := store_load 1 ((x % 2 ^ (8 * 1)).toNat) d off h hu
      simp only [getNumeric, NumericKind.byteWidth, hsize, if_pos h, hload, storedInt,
        Bool.false_eq_true, if_false]
  | Int16 =>
    obtain ⟨hw, hsg⟩ := Prod.mk.injEq 2 true w sg ▸ Option.some.inj hwk
    subst hw
    subst hsg
    have hu : (x % (2 : Int) ^ (8 * 2)).toNat < 2 ^ (8 * 2) := emod_toNat_lt x 2
    refine ⟨writeBytes d off (natToBytesBE 2 ((x % 2 ^ (8 * 2)).toNat)), ?_, ?_⟩
    · simp only [setNumeric, NumericKind.isBig, NumericKind.byteWidth, toNumberBits, htd,
        Bool.false_eq_true, if_false, if_pos h]
    · have hsize : (writeBytes d off (natToBytesBE 2 ((x % 2 ^ (8 * 2)).toNat))).size =
          d.size := by
        apply size_writeBytes
        rw [length_natToBytesBE]
        exact h
      have hload := store_load 2 ((x % 2 ^ (8 * 2)).toNat) d off h hu
      simp only [getNumeric, NumericKind.byteWidth, hsize, if_pos h, hload, storedInt, if_true]
  | Uint16 =>
    obtain ⟨hw, hsg⟩ := Prod.mk.injEq 2 false w sg ▸ Option.some.inj hwk
    subst hw
    subst hsg
    have hu : (x % (2 : Int) ^ (8 * 2)).toNat < 2 ^ (8 * 2) := emod_toNat_lt x 2
    refine ⟨writeBytes d off (natToBytesBE 2 ((x % 2 ^ (8 * 2)).toNat)), ?_, ?_⟩
    · simp only [setNumeric, NumericKind.isBig, NumericKind.byteWidth, toNumberBits, htd,
        Bool.false_eq_true, if_false, if_pos h]
    · have hsize : (writeBytes d off (natToBytesBE 2 ((x % 2 ^ (8 * 2)).toNat))).size =
          d.size := by
        apply size_writeBytes
        rw [length_natToBytesBE]
        exact h
      have hload := store_load 2 ((x % 2 ^ (8 * 2)).toNat) d off h hu
      simp only [getNumeric, NumericKind.byteWidth, hsize, if_pos h, hload, storedInt,
        Bool.false_eq_true, if_false]
  | Int32 =>
    obtain ⟨hw, hsg⟩ := Prod.mk.injEq 4 true w sg ▸ Option.some.inj hwk
    subst hw
    subst hsg
    have hu : (x % (2 : Int) ^ (8 * 4)).toNat < 2 ^ (8 * 4) := emod_toNat_lt x 4
    refine ⟨writeBytes d off (natToBytesBE 4 ((x % 2 ^ (8 * 4)).toNat)), ?_, ?_⟩
    · simp only [setNumeric, NumericKind.isBig, NumericKind.byteWidth, toNumberBits, htd,
        Bool.false_eq_true, if_false, if_pos h]
    · have hsize : (writeBytes d off (natToBytesBE 4 ((x % 2 ^ (8 * 4)).toNat))).size =
          d.size := by
        apply size_writeBytes
        rw [length_natToBytesBE]
        exact h
      have hload := store_load 4 ((x % 2 ^ (8 * 4)).toNat) d off h hu
      simp only [getNumeric, NumericKind.byteWidth, hsize, if_pos h, hload, storedInt, if_true]
  | Uint32 =>
    obtain ⟨hw, hsg⟩ := Prod.mk.injEq 4 false w sg ▸ Option.some.inj hwk
    subst hw
    subst hsg
    have hu : (x % (2 : Int) ^ (8 * 4)).toNat < 2 ^ (8 * 4) := emod_toNat_lt x 4
    refine ⟨writeBytes d off (natToBytesBE 4 ((x % 2 ^ (8 * 4)).toNat)), ?_, ?_⟩
    · simp only [setNumeric, NumericKind.isBig, NumericKind.byteWidth, toNumberBits, htd,
        Bool.false_eq_true, if_false, if_pos h]
    · have hsize : (writeBytes d off (natToBytesBE 4 ((x % 2 ^ (8 * 4)).toNat))).size =
          d.size := by
        apply size_writeBytes
        rw [length_natToBytesBE]
        exact h
      have hload := store_load 4 ((x % 2 ^ (8 * 4)).toNat) d off h hu
      simp only [getNumeric, NumericKind.byteWidth, hsize, if_pos h, hload, storedInt,
        Bool.false_eq_true, if_false]
  | Float32 => cases hwk
  | Float64 => cases hwk
  | BigInt64 => cases hwk
  | BigUint64 => cases hwk

/-- C9: for every NumericKind field on a bound, adequately sized instance,
`get` after `set(v)` returns `v` for every value representable at the
field's width; and for the integer kinds, storing any exact integer —
representable or not — follows the fixed-width truncation rule: the value
read back is the stored integer modulo `2 ^ w`, with two's-complement sign
interpretation for the signed kinds. -/
theorem C9_numeric_roundtrip :
    (∀ (i : Instance) (k : String) (desc : Descriptor) (nk : NumericKind) (d : Data)
      (v : Value),
      List.lookup k i.meta = some desc → desc.type = .numeric nk → i.data = some d →
      desc.byteOffset + nk.byteWidth ≤ d.size → Representable nk v →
      (set i k v).snd = none ∧ get (set i k v).fst k = .ok v) ∧
    (∀ (i : Instance) (k : String) (desc : Descriptor) (nk : NumericKind) (w : Nat)
      (sg : Bool) (d : Data) (x : Int),
      List.lookup k i.meta = some desc → desc.type = .numeric nk → i.data = some d →
      intWidth nk = some (w, sg) → desc.byteOffset + w ≤ d.size → x.natAbs < 2 ^ 53 →
      (set i k (.number (intToF64Bits x))).snd = none ∧
      get (set i k (.number (intToF64Bits x))).fst k =
        .ok (.number (intToF64Bits (storedInt w sg x)))) := by
  constructor
  · intro i k desc nk d v hlookup htype hdata hbound hrep
    obtain ⟨d2, hsn, hgn, _⟩ := getNumeric_setNumeric nk d desc.byteOffset v hbound hrep
    obtain ⟨h1, _, h3⟩ := set_get_lift i k desc nk d d2 v v hlookup htype hdata hsn hgn
    exact ⟨h1, h3⟩
  · intro i k desc nk w sg d x hlookup htype hdata hwk hbound hna
    obtain ⟨d2, hsn, hgn⟩ := setNumeric_int_stored nk w sg hwk d desc.byteOffset x hbound hna
    obtain ⟨h1, _, h3⟩ := set_get_lift i k desc nk d d2 _ _ hlookup htype hdata hsn hgn
    exact ⟨h1, h3⟩

/-- C9 witness: `C9_numeric_roundtrip` on a concrete bound Uint8 instance —
the representable value 200 round-trips, and the out-of-range value 300
truncates to 300 mod 256 = 44. -/
theorem C9_numeric_roundtrip_witness :
    ((set (accept (declare Instance.empty [(("v"), { type := .numeric .Uint8 })]).fst [0])
        ("v") (.number (intToF64Bits 200))).snd = none ∧
      get (set (accept (declare Instance.empty [(("v"), { type := .numeric .Uint8 })]).fst [0])
        ("v") (.number (intToF64Bits 200))).fst ("v") =
        .ok (.number (intToF64Bits 200))) ∧
    get (set (accept (declare Instance.empty [(("v"), { type := .numeric .Uint8 })]).fst [0])
        ("v") (.number (intToF64Bits 300))).fst ("v") =
      .ok (.number (intToF64Bits (storedInt 1 false 300))) := by
  constructor
  · exact C9_numeric_roundtrip.1
      (accept (declare Instance.empty [(("v"), { type := .numeric .Uint8 })]).fst [0])
      ("v") _ .Uint8 [0] (.number (intToF64Bits 200))
      rfl rfl rfl (by decide) ⟨200, by decide, rfl⟩
  · exact (C9_numeric_roundtrip.2
      (accept (declare Instance.empty [(("v"), { type := .numeric .Uint8 })]).fst [0])
      ("v") _ .Uint8 1 false [0] 300
      rfl rfl rfl rfl (by decide) (by decide)).2

end Threadables
